import Mathlib

/-!
Studio chaincode (`src/studio/go/main.go`)

A shallow embedding of the Go chaincode: materials are replenished, wands are produced from
materials and later sold.  Every operation takes the caller and the ledger and returns the
response together with the ledger after the call (the writes the call has issued, in order).

Modelling conventions:

* `int64` fields are values of `I64`: an integer together with the proof that it fits 64 signed
  bits; arithmetic reduces modulo `2^64` into that range, as Go does.
* Go strings are Lean strings (valid Unicode text), for which `json.Marshal` followed by
  `json.Unmarshal` gives the string back.
* The ledger is the in-memory key-value store behind `GetState`/`PutState`/`GetStateByRange`:
  a read observes the writes issued before it, also those of the same call, and the store
  itself never reports a fault.  An operation returns the ledger with the writes it has issued;
  whether the host keeps the writes of a call that returned an error is outside the operations.
* `json.Marshal` cannot fail on the three record types, so its error branches are unreachable
  and are left out.
-/

set_option autoImplicit false

namespace Studio

/-! ## 64-bit signed integers -/

/-- Smallest `int64`. -/
def minInt64 : Int := -9223372036854775808

/-- Largest `int64`. -/
def maxInt64 : Int := 9223372036854775807

/-- Reduction of an integer modulo `2^64` into the `int64` range (two's complement wrap-around). -/
def wrapInt64 (x : Int) : Int := (x + 9223372036854775808) % 18446744073709551616 - 9223372036854775808

/-- A Go `int64`. -/
structure I64 where
  val : Int
  lo : minInt64 ≤ val
  hi : val ≤ maxInt64
deriving DecidableEq

/-- Conversion to `int64`, wrapping. -/
def I64.ofInt (x : Int) : I64 :=
  ⟨wrapInt64 x, by unfold wrapInt64 minInt64; omega, by unfold wrapInt64 maxInt64; omega⟩

/-- Go `a + b` on `int64`. -/
def I64.add (a b : I64) : I64 := I64.ofInt (a.val + b.val)

/-- Go `a - b` on `int64`. -/
def I64.sub (a b : I64) : I64 := I64.ofInt (a.val - b.val)

/-! ## Records (`Material`, `Production`, `Wand`) -/

/-- Go `type Material struct`. -/
structure Material where
  Name : String
  Origin : String
  Quantity : I64
  ObjectType : String
deriving DecidableEq

/-- Go `type Production struct`. -/
structure Production where
  Materials : List Material
  Available : Bool
deriving DecidableEq

/-- Go `type Wand struct`. -/
structure Wand where
  Name : String
  ProductionHistory : List Production
  Quantity : I64
  ObjectType : String
deriving DecidableEq

/-! ## Stored bytes and JSON -/

/-- The byte strings a ledger entry can hold, up to what `json.Unmarshal` makes of them:
the output of `json.Marshal` on a `Material`, the output of `json.Marshal` on a `Wand`,
or bytes that are not a JSON document (`raw`). -/
inductive Bytes where
  | materialJSON (m : Material)
  | wandJSON (w : Wand)
  | raw (data : String)
deriving DecidableEq

/-- Go `json.Unmarshal(bytes, &material)` into a zero `Material`.  Object keys that name no
field of the target are skipped and fields without a key keep their zero value, so the JSON
of a `Wand` decodes without error: `name`, `quantity` and `objectType` are taken over,
`productionHistory` is skipped and `origin` stays empty. -/
def unmarshalMaterial : Bytes → Option Material
  | .materialJSON m => some m
  | .wandJSON w => some { Name := w.Name, Origin := "", Quantity := w.Quantity, ObjectType := w.ObjectType }
  | .raw _ => none

/-- Go `json.Unmarshal(bytes, &wand)` into a zero `Wand`; the JSON of a `Material` decodes
without error, with `origin` skipped and an empty (nil) production history. -/
def unmarshalWand : Bytes → Option Wand
  | .wandJSON w => some w
  | .materialJSON m => some { Name := m.Name, ProductionHistory := [], Quantity := m.Quantity, ObjectType := m.ObjectType }
  | .raw _ => none

/-! ## `strconv` -/

/-- Value of a run of decimal digits, most significant first; `none` on any other character. -/
def digitsValue : List Char → Nat → Option Nat
  | [], acc => some acc
  | c :: cs, acc =>
    if c.isDigit then digitsValue cs (acc * 10 + (c.toNat - 48)) else none

/-- Go `strconv.ParseInt(s, 10, 64)`: an optional sign, then at least one decimal digit, and the
value must fit `int64`. -/
def parseInt64 (s : String) : Option I64 :=
  let body (neg : Bool) (ds : List Char) : Option I64 :=
    match ds with
    | [] => none
    | _ :: _ =>
      match digitsValue ds 0 with
      | none => none
      | some n =>
        let v : Int := if neg then -(n : Int) else (n : Int)
        if h : minInt64 ≤ v ∧ v ≤ maxInt64 then some ⟨v, h.1, h.2⟩ else none
  match s.data with
  | [] => none
  | c :: cs =>
    if c = '-' then body true cs
    else if c = '+' then body false cs
    else body false (c :: cs)

/-- Go `strconv.Atoi(s)` on a platform with 64-bit `int`. -/
def atoi (s : String) : Option I64 := parseInt64 s

/-! ## The ledger -/

/-- The world state: key-value entries in range-scan order. -/
abbrev Ledger := List (String × Bytes)

/-- Go `stub.GetState(key)`: the stored bytes, `none` for Go `nil`. -/
def getState : Ledger → String → Option Bytes
  | [], _ => none
  | (k, v) :: rest, key => if k = key then some v else getState rest key

/-- Lexicographic order of keys, character by character (the order of a range scan). -/
def keyLt (a b : String) : Bool := decide (a.data < b.data)

/-- Go `stub.PutState(key, value)`: replaces the entry under `key`, or inserts it at its place
in key order. -/
def putState : Ledger → String → Bytes → Ledger
  | [], key, value => [(key, value)]
  | (k, v) :: rest, key, value =>
    if k = key then (key, value) :: rest
    else if keyLt key k then (key, value) :: (k, v) :: rest
    else (k, v) :: putState rest key value

/-! ## Caller identity -/

/-- What `proto.Unmarshal(creator, identity)` makes of the creator bytes. -/
inductive CreatorBytes where
  | identity (mspid : String)
  | malformed (err : String)
deriving DecidableEq

/-- The part of the stub that identifies the caller: the result of `stub.GetCreator()`. -/
structure Caller where
  getCreator : Except String CreatorBytes

/-- Go `getMSPID`. -/
def getMSPID (creator : CreatorBytes) : Except String String :=
  match creator with
  | .malformed err => .error ("erro ao desserializar o criador: " ++ err)
  | .identity mspid => .ok mspid

/-- Go `getOrg`. -/
def getOrg (stub : Caller) : Except String String :=
  match stub.getCreator with
  | .error err => .error ("erro ao ler o criador da transacao: " ++ err)
  | .ok creator =>
    match getMSPID creator with
    | .error err => .error err
    | .ok mspID => .ok mspID

/-! ## Responses -/

/-- Payload of `shim.Success`: Go `nil`, the bytes of a text, the JSON value `null`, or a JSON
array of records (`materialArray []` and `wandArray []` are the empty array `[]`). -/
inductive Payload where
  | nil
  | text (s : String)
  | jsonNull
  | materialArray (ms : List Material)
  | wandArray (ws : List Wand)
deriving DecidableEq

/-- Go `pb.Response` as built by `shim.Success` and `shim.Error`. -/
inductive Response where
  | success (payload : Payload)
  | error (msg : String)
deriving DecidableEq

/-- Go `%d` of an `int64`. -/
def fmtInt (x : I64) : String := toString x.val

/-! ## Operations -/

/-- Go `getMaterial`. -/
def getMaterial (l : Ledger) (materialName origin : String) : Except String Material :=
  if materialName = "" ∨ origin = "" then
    .error "nome do Material ou origem não podem ser vazios"
  else
    let compositeKey := materialName ++ origin
    match getState l compositeKey with
    | none => .ok { Name := materialName, Quantity := I64.ofInt 0, Origin := origin, ObjectType := "Material" }
    | some materialJSON =>
      match unmarshalMaterial materialJSON with
      | none => .error "erro ao desserializar material"
      | some material => .ok material

/-- Go `addMaterial`. -/
def addMaterial (l : Ledger) (args : List String) : Response × Ledger :=
  match args with
  | [name, origin, qty] =>
    match parseInt64 qty with
    | none => (.error "Quantidade inválida.", l)
    | some quantity =>
      match getMaterial l name origin with
      | .error _ => (.error "Erro ao obter material.", l)
      | .ok material =>
        let material := { material with Quantity := I64.add material.Quantity quantity }
        (.success .nil, putState l (name ++ origin) (.materialJSON material))
  | _ => (.error "Esperado 3 argumentos: Nome, Origem, Quantidade.", l)

/-- Go `json.Marshal(materials)` in `listMaterials`: a slice that was never appended to is nil
and marshals to `null`. -/
def marshalMaterials : List Material → Payload
  | [] => .jsonNull
  | m :: ms => .materialArray (m :: ms)

/-- Go `json.Marshal(wands)` in `listWands`. -/
def marshalWands : List Wand → Payload
  | [] => .jsonNull
  | w :: ws => .wandArray (w :: ws)

/-- The scan loop of `listMaterials`. -/
def scanMaterials : Ledger → List Material → List Material
  | [], materials => materials
  | (_, value) :: rest, materials =>
    match unmarshalMaterial value with
    | some material =>
      if material.ObjectType = "Material" then scanMaterials rest (materials ++ [material])
      else scanMaterials rest materials
    | none => scanMaterials rest materials

/-- Go `listMaterials`. -/
def listMaterials (l : Ledger) : Response × Ledger :=
  (.success (marshalMaterials (scanMaterials l [])), l)

/-- The scan loop of `listWands`. -/
def scanWands : Ledger → List Wand → List Wand
  | [], wands => wands
  | (_, value) :: rest, wands =>
    match unmarshalWand value with
    | some wand =>
      if wand.ObjectType = "Wand" then scanWands rest (wands ++ [wand])
      else scanWands rest wands
    | none => scanWands rest wands

/-- Go `listWands`. -/
def listWands (l : Ledger) : Response × Ledger :=
  (.success (marshalWands (scanWands l [])), l)

/-- The first loop of `createWand` (`for i := 1; i < len(args)-2; i += 3`), run on the
arguments from index `i` on: it consumes `args[i]`, `args[i+1]`, `args[i+2]` while three
arguments are left. -/
def validateMaterials (l : Ledger) : List String → List Material → Except String (List Material)
  | materialName :: origin :: qty :: rest, materials =>
    match parseInt64 qty with
    | none => .error "Erro ao converter quantidade do material."
    | some quantityRequired =>
      match getState l (materialName ++ origin) with
      | none => .error ("Material " ++ materialName ++ " de origem " ++ origin ++ " não encontrado.")
      | some materialBytes =>
        match unmarshalMaterial materialBytes with
        | none => .error "Erro ao deserializar material."
        | some material =>
          if material.Quantity.val < quantityRequired.val then
            .error ("Não há quantidade suficiente do material " ++ material.Name
              ++ ". Quantidade disponível: " ++ fmtInt material.Quantity
              ++ ", requerida: " ++ fmtInt quantityRequired ++ ".")
          else
            validateMaterials l rest (materials ++
              [{ Origin := origin, Name := material.Name, Quantity := quantityRequired, ObjectType := "Material" }])
  | _, materials => .ok materials

/-- The second loop of `createWand` (`for _, material := range materials`): the ledger after
the writes issued so far, and the error message when the loop returns early. -/
def debitMaterials : Ledger → List Material → Ledger × Option String
  | l, [] => (l, none)
  | l, material :: rest =>
    let materialKey := material.Name ++ material.Origin
    match (getState l materialKey).bind unmarshalMaterial with
    | none => (l, some "Erro ao deserializar material para atualização.")
    | some ledgerMaterial =>
      let ledgerMaterial := { ledgerMaterial with
        Quantity := I64.sub ledgerMaterial.Quantity material.Quantity }
      debitMaterials (putState l materialKey (.materialJSON ledgerMaterial)) rest

/-- The wand `createWand` assembles in memory before the debits (`wandBytes, err :=
stub.GetState(wandName)` up to the end of the `if wandBytes != nil` statement): the stored
wand with quantity plus one and the new production appended, or a fresh wand. -/
def assembleWand (l : Ledger) (wandName : String) (materials : List Material) : Except String Wand :=
  match getState l wandName with
  | some wandBytes =>
    match unmarshalWand wandBytes with
    | none => .error "Erro ao desserializar varinha existente."
    | some wand =>
      .ok { wand with
        Quantity := I64.add wand.Quantity (I64.ofInt 1),
        ProductionHistory := wand.ProductionHistory ++ [{ Materials := materials, Available := true }] }
  | none =>
    .ok {
      Name := wandName,
      Quantity := I64.ofInt 1,
      ProductionHistory := [{ Materials := materials, Available := true }],
      ObjectType := "Wand" }

/-- Go `createWand`. -/
def createWand (stub : Caller) (l : Ledger) (args : List String) : Response × Ledger :=
  match getOrg stub with
  | .error err => (.error ("Erro ao obter organização: " ++ err), l)
  | .ok orgID =>
    if orgID ≠ "org0-example-com" then
      (.error ("Somente o Sr. Olivaras pode criar novas varinhas. Sua organização: " ++ orgID ++ "."), l)
    else if args.length < 4 then
      (.error "Esperado pelo menos 4 argumentos: Nome da Varinha, Nome Material, Origem do Material, Quantidade do material.", l)
    else if args.length % 3 ≠ 1 ∨ args.length = 1 then
      (.error "Argumentos dos materiais devem ser em trios (Nome do Material, Origem, Quantidade).", l)
    else
      let wandName := args.headD ""
      match validateMaterials l (args.drop 1) [] with
      | .error msg => (.error msg, l)
      | .ok materials =>
        match assembleWand l wandName materials with
        | .error msg => (.error msg, l)
        | .ok wand =>
          match debitMaterials l materials with
          | (l1, some msg) => (.error msg, l1)
          | (l1, none) =>
            (.success (.text ("Varinha '" ++ wand.Name ++ "' criada ou atualizada com sucesso.")),
              putState l1 wand.Name (.wandJSON wand))

/-- Go `wand.ProductionHistory[i].Available = false`. -/
def markSold : List Production → Nat → List Production
  | [], _ => []
  | p :: ps, 0 => { p with Available := false } :: ps
  | p :: ps, i + 1 => p :: markSold ps i

/-- Go `sellWand`. -/
def sellWand (stub : Caller) (l : Ledger) (args : List String) : Response × Ledger :=
  match getOrg stub with
  | .error err => (.error ("Erro ao obter organização: " ++ err), l)
  | .ok orgID =>
    if orgID ≠ "org0-example-com" then
      (.error ("Somente o Sr. Olivaras pode vender varinhas. Sua organização: " ++ orgID), l)
    else
      match args with
      | [wandName, index] =>
        match getState l wandName with
        | none => (.error ("Varinha com o nome '" ++ wandName ++ "' não encontrada na ledger."), l)
        | some wandBytes =>
          match atoi index with
          | none => (.error "O índice deve ser um número inteiro.", l)
          | some i =>
            match unmarshalWand wandBytes with
            | none => (.error "Erro ao decodificar dados da varinha.", l)
            | some wand =>
              if i.val < 0 ∨ i.val ≥ (wand.ProductionHistory.length : Int) then
                (.error "Índice fora do limite do vetor ProductionHistory.", l)
              else
                match wand.ProductionHistory[i.val.toNat]? with
                | none => (.error "Índice fora do limite do vetor ProductionHistory.", l)
                | some entry =>
                  if entry.Available then
                    let wand := { wand with
                      Quantity := I64.sub wand.Quantity (I64.ofInt 1),
                      ProductionHistory := markSold wand.ProductionHistory i.val.toNat }
                    (.success (.text "Varinha vendida com sucesso"), putState l wandName (.wandJSON wand))
                  else
                    (.error "Essa varinha ja foi vendida.", l)
      | _ => (.error "Esperado 2 argumentos: Nome da varinha e índice no vetor ProductionHistory.", l)

/-- Go `Invoke`. -/
def Invoke (stub : Caller) (l : Ledger) (function : String) (args : List String) : Response × Ledger :=
  if function = "addMaterial" then addMaterial l args
  else if function = "listMaterials" then listMaterials l
  else if function = "createWand" then createWand stub l args
  else if function = "sellWand" then sellWand stub l args
  else if function = "listWands" then listWands l
  else (.error "Funcao invalida.", l)

/-- The privileged caller. -/
def olivaras : Caller := { getCreator := .ok (.identity "org0-example-com") }

/-! ## Vocabulary of the properties -/

/-- The argument list of `createWand` after the wand name: material triples, flattened. -/
def flattenTriples : List (String × String × String) → List String
  | [] => []
  | (name, origin, qty) :: rest => name :: origin :: qty :: flattenTriples rest

/-- Whether a triple gets through the checks of the validation loop: its quantity parses,
its key is present and decodes, and the stored quantity is not less than the required one. -/
def passesValidation (l : Ledger) (t : String × String × String) : Bool :=
  match parseInt64 t.2.2, (getState l (t.1 ++ t.2.1)).bind unmarshalMaterial with
  | some quantityRequired, some material => decide (¬ material.Quantity.val < quantityRequired.val)
  | _, _ => false

/-- The key `createWand` writes the wand under: the name inside the record stored under
`wandName` when there is one that decodes, `wandName` itself otherwise. -/
def wandKey (l : Ledger) (wandName : String) : String :=
  match (getState l wandName).bind unmarshalWand with
  | some wand => wand.Name
  | none => wandName

/-- Sum of the quantities of the snapshots whose debit key is `key`. -/
def debitSum (key : String) : List Material → Int
  | [] => 0
  | material :: rest =>
    (if material.Name ++ material.Origin = key then material.Quantity.val else 0) + debitSum key rest

/-- Sum of the required quantities of the triples whose `name ++ origin` is `key`. -/
def requiredSum (key : String) : List (String × String × String) → Int
  | [] => 0
  | (name, origin, qty) :: rest =>
    (if name ++ origin = key then
      match parseInt64 qty with
      | some quantityRequired => quantityRequired.val
      | none => 0
    else 0) + requiredSum key rest

/-- Ledgers reached from one with no entry under `wandName` by `n` successful `createWand`
calls for `wandName`, with any steps in between that leave the entry under `wandName` as it
is (so no `sellWand` of that wand). -/
inductive ProducedTimes (wandName : String) : Nat → Ledger → Prop where
  | start (l : Ledger) : getState l wandName = none → ProducedTimes wandName 0 l
  | create (n : Nat) (l l2 : Ledger) (stub : Caller) (materialArgs : List String) (payload : Payload) :
      ProducedTimes wandName n l →
      createWand stub l (wandName :: materialArgs) = (.success payload, l2) →
      ProducedTimes wandName (n + 1) l2
  | other (n : Nat) (l l2 : Ledger) :
      ProducedTimes wandName n l →
      getState l2 wandName = getState l wandName →
      ProducedTimes wandName n l2

/-- Number of history entries whose `Available` flag is true. -/
def availableCount (history : List Production) : Nat :=
  (history.filter (fun p => p.Available)).length

/-- Whether the record stored under `key` decodes and carries the Wand discriminator. -/
def holdsWandKind (l : Ledger) (key : String) : Bool :=
  match (getState l key).bind unmarshalMaterial with
  | some record => decide (record.ObjectType = "Wand")
  | none => false

/-- The wand quantity invariant on a ledger: every record that decodes as a `Wand` carrying the
Wand discriminator has as quantity the number of its available entries, as an `int64`. -/
def WandsCounted (l : Ledger) : Prop :=
  ∀ key b w, getState l key = some b → unmarshalWand b = some w → w.ObjectType = "Wand" →
    w.Quantity = I64.ofInt (availableCount w.ProductionHistory)

/-- Ledgers reached from the empty ledger by successful invocations, by any callers with any
arguments (the host discards the writes of a failed invocation). -/
inductive Reachable : Ledger → Prop where
  | empty : Reachable []
  | invoke (stub : Caller) (l l2 : Ledger) (function : String) (args : List String) (payload : Payload) :
      Reachable l → Invoke stub l function args = (.success payload, l2) → Reachable l2

/-- Whether an invocation keeps the material path off records of the Wand kind: `addMaterial`
is not applied to a key holding a record with the Wand discriminator, and no snapshot validated
by `createWand` has such a key as its debit key. -/
def keepsKindsApart (l : Ledger) (function : String) (args : List String) : Bool :=
  if function = "addMaterial" then
    match args with
    | [name, origin, _] => !holdsWandKind l (name ++ origin)
    | _ => true
  else if function = "createWand" then
    match validateMaterials l (args.drop 1) [] with
    | .ok materials => materials.all (fun m => !holdsWandKind l (m.Name ++ m.Origin))
    | .error _ => true
  else true

/-- Ledgers reached from the empty ledger by invocations that keep the kinds apart; the writes
of a failed invocation are kept, so the ledgers reached when the host discards them are among
these. -/
inductive ReachableApart : Ledger → Prop where
  | empty : ReachableApart []
  | invoke (stub : Caller) (l : Ledger) (function : String) (args : List String) :
      ReachableApart l → keepsKindsApart l function args = true →
      ReachableApart (Invoke stub l function args).2

/-- The triples the validation loop of `createWand` visits on the arguments after the wand
name: three arguments at a time while three are left. -/
def loopTriples : List String → List (String × String × String)
  | name :: origin :: qty :: rest => (name, origin, qty) :: loopTriples rest
  | _ => []

/-- The two failures with which `createWand` rejects the shape of its argument list. -/
def shapeErrors : List String :=
  ["Esperado pelo menos 4 argumentos: Nome da Varinha, Nome Material, Origem do Material, Quantidade do material.",
   "Argumentos dos materiais devem ser em trios (Nome do Material, Origem, Quantidade)."]

/-- What the scan of `listMaterials` keeps of a ledger entry: the decoded record, when the value
decodes as a `Material` and carries the discriminator `Material`. -/
def materialEntry (entry : String × Bytes) : Option Material :=
  match unmarshalMaterial entry.2 with
  | some material => if material.ObjectType = "Material" then some material else none
  | none => none

/-- What the scan of `listWands` keeps of a ledger entry: the decoded record, when the value
decodes as a `Wand` and carries the discriminator `Wand`. -/
def wandEntry (entry : String × Bytes) : Option Wand :=
  match unmarshalWand entry.2 with
  | some wand => if wand.ObjectType = "Wand" then some wand else none
  | none => none

/-- The snapshot the validation loop keeps of a triple that passes: the name stored in the
validated record, the requested origin, the required quantity and the discriminator `Material`. -/
def snapshotOf (l : Ledger) (t : String × String × String) : Option Material :=
  match parseInt64 t.2.2, (getState l (t.1 ++ t.2.1)).bind unmarshalMaterial with
  | some quantityRequired, some material =>
    some { Origin := t.2.1, Name := material.Name, Quantity := quantityRequired, ObjectType := "Material" }
  | _, _ => none

/-- The production history of the record stored under `wandName`, empty when there is none. -/
def storedHistory (l : Ledger) (wandName : String) : List Production :=
  match (getState l wandName).bind unmarshalWand with
  | some wand => wand.ProductionHistory
  | none => []

/-- Number of ledger entries stored under `key`. -/
def entriesUnder (l : Ledger) (key : String) : Nat :=
  (l.filter (fun entry => decide (entry.1 = key))).length

/-- The failures with which `createWand` rejects its arguments as such: the two shape failures
and the failure to convert a quantity. -/
def invalidArgumentErrors : List String :=
  shapeErrors ++ ["Erro ao converter quantidade do material."]

/-! ## Scenario ledgers -/

/-- A ledger in which wood from the forest is ample and iron from the mine is short. -/
def shortOfIron : Ledger :=
  [("ironmine", .materialJSON ⟨"iron", "mine", I64.ofInt 2, "Material"⟩),
   ("woodforest", .materialJSON ⟨"wood", "forest", I64.ofInt 10, "Material"⟩)]

/-- The ledger after `addMaterial("wood", "forest", "9223372036854775807")` on the empty ledger. -/
def brimful : Ledger := (addMaterial [] ["wood", "forest", "9223372036854775807"]).2

/-- A caller from another organization. -/
def gregorovitch : Caller := { getCreator := .ok (.identity "org1-example-com") }

/-- The ledger after `addMaterial("wood", "forest", "10")` on the empty ledger. -/
def stocked : Ledger := (addMaterial [] ["wood", "forest", "10"]).2

/-- The ledger after `createWand("elm-wand", "wood", "forest", "3")` on `stocked`. -/
def produced : Ledger := (createWand olivaras stocked ["elm-wand", "wood", "forest", "3"]).2

/-- The ledger after `sellWand("elm-wand", "0")` on `produced`. -/
def sold : Ledger := (sellWand olivaras produced ["elm-wand", "0"]).2

/-- The ledger after `createWand("elm", "wood", "forest", "1")` on `stocked`. -/
def elmOnce : Ledger := (createWand olivaras stocked ["elm", "wood", "forest", "1"]).2

/-- The ledger after `addMaterial("el", "m", "9223372036854775806")` on `elmOnce`. -/
def elmInflated : Ledger := (addMaterial elmOnce ["el", "m", "9223372036854775806"]).2

/-- The ledger after `createWand("elm", "wood", "forest", "1")` on `elmInflated`. -/
def wrappedWand : Ledger := (createWand olivaras elmInflated ["elm", "wood", "forest", "1"]).2

/-- The ledger after `addMaterial("ab", "c", "5")` on `produced`. -/
def withAbc : Ledger := (addMaterial produced ["ab", "c", "5"]).2

/-- The ledger after `createWand("abbc", "wood", "forest", "1")` on `withAbc`. -/
def withAbbc : Ledger := (createWand olivaras withAbc ["abbc", "wood", "forest", "1"]).2

/-- The ledger after `createWand("oak", "a", "bc", "0")` on `withAbbc`. -/
def debitedWand : Ledger := (createWand olivaras withAbbc ["oak", "a", "bc", "0"]).2

/-- The ledger after `addMaterial("elm-", "wand", "5")`, by a caller of another organization,
on `produced`. -/
def muddled : Ledger := (addMaterial produced ["elm-", "wand", "5"]).2

/-- The ledger after `addMaterial("ab", "c", "5")` on the empty ledger. -/
def collided0 : Ledger := (addMaterial [] ["ab", "c", "5"]).2

/-- The ledger after `addMaterial("abb", "c", "5")` on `collided0`. -/
def collided : Ledger := (addMaterial collided0 ["abb", "c", "5"]).2

/-- The ledger after `createWand("w", "a", "bc", "1")` on `collided`. -/
def miscredited : Ledger := (createWand olivaras collided ["w", "a", "bc", "1"]).2

/-- The ledger after `addMaterial("ab", "c", "9223372036854775807")` on the empty ledger. -/
def abcFull : Ledger := (addMaterial [] ["ab", "c", "9223372036854775807"]).2

/-- The ledger after `addMaterial("wood", "forest", "5")` on the empty ledger. -/
def fiveWood : Ledger := (addMaterial [] ["wood", "forest", "5"]).2

/-- The ledger after `createWand("w", "wood", "forest", "3", "wood", "forest", "3")` on
`fiveWood`. -/
def overdrawn : Ledger :=
  (createWand olivaras fiveWood ["w", "wood", "forest", "3", "wood", "forest", "3"]).2

/-- The ledger after `addMaterial("wood", "forest", "0")` on the empty ledger. -/
def emptied : Ledger := (addMaterial [] ["wood", "forest", "0"]).2

/-- The ledger after `createWand("ab", "wood", "forest", "1")` on `stocked`. -/
def abMade : Ledger := (createWand olivaras stocked ["ab", "wood", "forest", "1"]).2

/-- The ledger after `sellWand("ab", "0")` on `abMade`. -/
def abSold : Ledger := (sellWand olivaras abMade ["ab", "0"]).2

/-- The ledger after `addMaterial("ab", "c", "5")` on `abSold`. -/
def abWithMaterial : Ledger := (addMaterial abSold ["ab", "c", "5"]).2

/-- The ledger after `createWand("abc", "wood", "forest", "2")` on `abWithMaterial`. -/
def abRewritten : Ledger := (createWand olivaras abWithMaterial ["abc", "wood", "forest", "2"]).2

/-! ## Arithmetic lemmas -/

theorem wrapInt64_lo (x : Int) : minInt64 ≤ wrapInt64 x := (I64.ofInt x).lo

theorem wrapInt64_hi (x : Int) : wrapInt64 x ≤ maxInt64 := (I64.ofInt x).hi

theorem wrapInt64_of_range (x : Int) (hlo : minInt64 ≤ x) (hhi : x ≤ maxInt64) : wrapInt64 x = x := by
  unfold wrapInt64; unfold minInt64 at hlo; unfold maxInt64 at hhi; omega

theorem wrapInt64_add_wrap (a b : Int) : wrapInt64 (wrapInt64 a + b) = wrapInt64 (a + b) := by
  unfold wrapInt64; omega

theorem wrapInt64_sub_wrap (a b : Int) : wrapInt64 (wrapInt64 a - b) = wrapInt64 (a - b) := by
  unfold wrapInt64; omega

theorem wrapInt64_one : wrapInt64 1 = 1 := by decide

theorem I64.eq_of_val_eq {a b : I64} (h : a.val = b.val) : a = b := by
  cases a; cases b; simp only at h; subst h; rfl

theorem I64.ofInt_val (a : I64) : I64.ofInt a.val = a :=
  I64.eq_of_val_eq (wrapInt64_of_range a.val a.lo a.hi)

theorem I64.val_ofInt (x : Int) : (I64.ofInt x).val = wrapInt64 x := rfl

theorem I64.val_add (a b : I64) : (I64.add a b).val = wrapInt64 (a.val + b.val) := rfl

theorem I64.val_sub (a b : I64) : (I64.sub a b).val = wrapInt64 (a.val - b.val) := rfl

theorem I64.ofInt_add_one (x : Int) : I64.add (I64.ofInt x) (I64.ofInt 1) = I64.ofInt (x + 1) := by
  apply I64.eq_of_val_eq
  simp only [I64.val_add, I64.val_ofInt, wrapInt64_one, wrapInt64_add_wrap]

theorem I64.ofInt_sub_one (x : Int) : I64.sub (I64.ofInt x) (I64.ofInt 1) = I64.ofInt (x - 1) := by
  apply I64.eq_of_val_eq
  simp only [I64.val_sub, I64.val_ofInt, wrapInt64_one, wrapInt64_sub_wrap]

/-! ## Ledger lemmas -/

theorem getState_putState_same (l : Ledger) (key : String) (value : Bytes) :
    getState (putState l key value) key = some value := by
  induction l with
  | nil => simp [putState, getState]
  | cons e rest ih =>
    obtain ⟨k, v⟩ := e
    by_cases h1 : k = key
    · simp [putState, getState, h1]
    · by_cases h2 : keyLt key k = true
      · simp [putState, getState, h1, h2]
      · simp [putState, getState, h1, h2, ih]

theorem getState_putState_other (l : Ledger) (key key2 : String) (value : Bytes) (hne : key2 ≠ key) :
    getState (putState l key value) key2 = getState l key2 := by
  induction l with
  | nil => simp [putState, getState, Ne.symm hne]
  | cons e rest ih =>
    obtain ⟨k, v⟩ := e
    by_cases h1 : k = key
    · subst h1
      simp [putState, getState, Ne.symm hne]
    · by_cases h2 : keyLt key k = true
      · simp [putState, getState, h1, h2, Ne.symm hne]
      · simp [putState, getState, h1, h2, ih]

/-! ## Selling -/

theorem length_markSold (ps : List Production) (i : Nat) : (markSold ps i).length = ps.length := by
  induction ps generalizing i with
  | nil => rfl
  | cons p ps ih => cases i <;> simp [markSold, ih]

theorem getElem?_markSold_same (ps : List Production) (i : Nat) (entry : Production)
    (h : ps[i]? = some entry) :
    (markSold ps i)[i]? = some { entry with Available := false } := by
  induction ps generalizing i with
  | nil => simp at h
  | cons p ps ih =>
    cases i with
    | zero => simp at h; simp [markSold, h]
    | succ i => simp at h; simpa [markSold] using ih i (by simpa using h)

theorem getElem?_markSold_other (ps : List Production) (i j : Nat) (hne : j ≠ i) :
    (markSold ps i)[j]? = ps[j]? := by
  induction ps generalizing i j with
  | nil => rfl
  | cons p ps ih =>
    cases i with
    | zero =>
      cases j with
      | zero => exact absurd rfl hne
      | succ j => simp [markSold]
    | succ i =>
      cases j with
      | zero => simp [markSold]
      | succ j => simpa [markSold] using ih i j (by omega)

/-- The wand `sellWand` writes back after selling entry `i`. -/
theorem sellWand_of_available (stub : Caller) (l : Ledger) (wandName index : String) (i : I64)
    (b : Bytes) (w : Wand) (entry : Production)
    (hpriv : getOrg stub = .ok "org0-example-com")
    (hget : getState l wandName = some b) (hdec : unmarshalWand b = some w)
    (hidx : atoi index = some i) (hlo : 0 ≤ i.val)
    (hentry : w.ProductionHistory[i.val.toNat]? = some entry) (havail : entry.Available = true) :
    sellWand stub l [wandName, index] = (.success (.text "Varinha vendida com sucesso"),
      putState l wandName (.wandJSON { w with
        Quantity := I64.sub w.Quantity (I64.ofInt 1),
        ProductionHistory := markSold w.ProductionHistory i.val.toNat })) := by
  have hlt : i.val.toNat < w.ProductionHistory.length := by
    by_contra hc
    rw [List.getElem?_eq_none (by omega)] at hentry
    exact Option.noConfusion hentry
  have hrange : ¬ (i.val < 0 ∨ i.val ≥ (w.ProductionHistory.length : Int)) := by omega
  simp [sellWand, hpriv, hget, hdec, hidx, hrange, hentry, havail]

theorem sellWand_of_sold (stub : Caller) (l : Ledger) (wandName index : String) (i : I64)
    (b : Bytes) (w : Wand) (entry : Production)
    (hpriv : getOrg stub = .ok "org0-example-com")
    (hget : getState l wandName = some b) (hdec : unmarshalWand b = some w)
    (hidx : atoi index = some i) (hlo : 0 ≤ i.val)
    (hentry : w.ProductionHistory[i.val.toNat]? = some entry) (havail : entry.Available = false) :
    sellWand stub l [wandName, index] = (.error "Essa varinha ja foi vendida.", l) := by
  have hlt : i.val.toNat < w.ProductionHistory.length := by
    by_contra hc
    rw [List.getElem?_eq_none (by omega)] at hentry
    exact Option.noConfusion hentry
  have hrange : ¬ (i.val < 0 ∨ i.val ≥ (w.ProductionHistory.length : Int)) := by omega
  simp [sellWand, hpriv, hget, hdec, hidx, hrange, hentry, havail]

/-- What a successful `sellWand` has read and written. -/
theorem sellWand_success_inv (stub : Caller) (l l2 : Ledger) (args : List String) (payload : Payload)
    (h : sellWand stub l args = (.success payload, l2)) :
    ∃ wandName index b i w entry, args = [wandName, index] ∧
      getOrg stub = .ok "org0-example-com" ∧ getState l wandName = some b ∧
      unmarshalWand b = some w ∧ atoi index = some i ∧ 0 ≤ i.val ∧
      w.ProductionHistory[i.val.toNat]? = some entry ∧ entry.Available = true ∧
      l2 = putState l wandName (.wandJSON { w with
        Quantity := I64.sub w.Quantity (I64.ofInt 1),
        ProductionHistory := markSold w.ProductionHistory i.val.toNat }) := by
  unfold sellWand at h
  cases horg : getOrg stub with
  | error e => simp [horg] at h
  | ok org =>
    simp only [horg] at h
    by_cases hp : org = "org0-example-com"
    · subst hp
      simp only [ne_eq, not_true_eq_false, if_false] at h
      match args, h with
      | [wandName, index], h =>
        simp only at h
        cases hget : getState l wandName with
        | none => simp [hget] at h
        | some b =>
          cases hidx : atoi index with
          | none => simp [hget, hidx] at h
          | some i =>
            cases hdec : unmarshalWand b with
            | none => simp [hget, hidx, hdec] at h
            | some w =>
              simp only [hget, hidx, hdec] at h
              by_cases hrange : i.val < 0 ∨ i.val ≥ (w.ProductionHistory.length : Int)
              · simp [hrange] at h
              · simp only [hrange, if_false] at h
                cases hentry : w.ProductionHistory[i.val.toNat]? with
                | none => simp [hentry] at h
                | some entry =>
                  simp only [hentry] at h
                  by_cases havail : entry.Available = true
                  · simp only [havail, if_true, Prod.mk.injEq] at h
                    exact ⟨wandName, index, b, i, w, entry, rfl, rfl, hget, hdec, hidx, by omega,
                      hentry, havail, h.2.symm⟩
                  · simp [havail] at h
      | [], h => simp at h
      | [_], h => simp at h
      | _ :: _ :: _ :: _, h => simp at h
    · simp [hp] at h

/-! ## Producing -/

theorem length_flattenTriples (triples : List (String × String × String)) :
    (flattenTriples triples).length = 3 * triples.length := by
  induction triples with
  | nil => rfl
  | cons t rest ih =>
    obtain ⟨n, o, s⟩ := t
    simp only [flattenTriples, List.length_cons, ih]
    omega

/-- For the privileged caller, a wand name followed by at least one triple passes the shape
checks. -/
theorem createWand_of_triples (stub : Caller) (l : Ledger) (wandName : String)
    (triples : List (String × String × String))
    (hpriv : getOrg stub = .ok "org0-example-com") (hne : triples ≠ []) :
    createWand stub l (wandName :: flattenTriples triples) =
      match validateMaterials l (flattenTriples triples) [] with
      | .error msg => (.error msg, l)
      | .ok materials =>
        match assembleWand l wandName materials with
        | .error msg => (.error msg, l)
        | .ok wand =>
          match debitMaterials l materials with
          | (l1, some msg) => (.error msg, l1)
          | (l1, none) =>
            (.success (.text ("Varinha '" ++ wand.Name ++ "' criada ou atualizada com sucesso.")),
              putState l1 wand.Name (.wandJSON wand)) := by
  have hlen : 0 < triples.length := List.length_pos.mpr hne
  have h1 : ¬ (wandName :: flattenTriples triples).length < 4 := by
    simp only [List.length_cons, length_flattenTriples]; omega
  have h2 : ¬ ((wandName :: flattenTriples triples).length % 3 ≠ 1
      ∨ (wandName :: flattenTriples triples).length = 1) := by
    simp only [List.length_cons, length_flattenTriples]; omega
  simp only [createWand, hpriv, ne_eq, not_true_eq_false, if_false, h1, h2,
    List.drop_succ_cons, List.drop_zero, List.headD_cons]

/-- What a successful `createWand` has read and written. -/
theorem createWand_success_inv (stub : Caller) (l l2 : Ledger) (args : List String) (payload : Payload)
    (h : createWand stub l args = (.success payload, l2)) :
    ∃ materials wand l1, getOrg stub = .ok "org0-example-com" ∧
      validateMaterials l (args.drop 1) [] = .ok materials ∧
      assembleWand l (args.headD "") materials = .ok wand ∧
      debitMaterials l materials = (l1, none) ∧
      l2 = putState l1 wand.Name (.wandJSON wand) := by
  unfold createWand at h
  cases horg : getOrg stub with
  | error e => simp [horg] at h
  | ok org =>
    simp only [horg] at h
    by_cases hp : org = "org0-example-com"
    · subst hp
      simp only [ne_eq, not_true_eq_false, if_false] at h
      by_cases h1 : args.length < 4
      · simp [h1] at h
      · by_cases h2 : ¬ args.length % 3 = 1 ∨ args.length = 1
        · simp [h1, h2] at h
        · simp only [h1, h2, if_false] at h
          cases hv : validateMaterials l (args.drop 1) [] with
          | error e => simp only [hv] at h; cases h
          | ok materials =>
            cases ha : assembleWand l (args.headD "") materials with
            | error e => simp only [hv, ha] at h; cases h
            | ok wand =>
              cases hd : debitMaterials l materials with
              | mk l1 err =>
                cases err with
                | some e => simp only [hv, ha, hd] at h; cases h
                | none =>
                  simp only [hv, ha, hd, Prod.mk.injEq] at h
                  exact ⟨materials, wand, l1, rfl, rfl, ha, hd, h.2.symm⟩
    · simp [hp] at h

theorem assembleWand_name (l : Ledger) (wandName : String) (materials : List Material) (wand : Wand)
    (h : assembleWand l wandName materials = .ok wand) : wand.Name = wandKey l wandName := by
  unfold assembleWand at h
  unfold wandKey
  cases hg : getState l wandName with
  | none =>
    simp only [hg, Except.ok.injEq] at h
    subst h
    rfl
  | some b =>
    cases hd : unmarshalWand b with
    | none => simp only [hg, hd] at h; cases h
    | some w =>
      simp only [hg, hd, Except.ok.injEq] at h
      subst h
      simp [hd]

/-! ## The debit loop -/

theorem debitMaterials_cons (l : Ledger) (material : Material) (rest : List Material) :
    debitMaterials l (material :: rest) =
      match (getState l (material.Name ++ material.Origin)).bind unmarshalMaterial with
      | none => (l, some "Erro ao deserializar material para atualização.")
      | some ledgerMaterial =>
        debitMaterials (putState l (material.Name ++ material.Origin)
          (.materialJSON { ledgerMaterial with
            Quantity := I64.sub ledgerMaterial.Quantity material.Quantity })) rest := rfl

/-- The debit loop leaves alone every key that is no snapshot's debit key. -/
theorem debitMaterials_other (l : Ledger) (materials : List Material) (key : String)
    (hne : ∀ m ∈ materials, m.Name ++ m.Origin ≠ key) :
    getState (debitMaterials l materials).1 key = getState l key := by
  induction materials generalizing l with
  | nil => rfl
  | cons m rest ih =>
    rw [debitMaterials_cons]
    cases hr : (getState l (m.Name ++ m.Origin)).bind unmarshalMaterial with
    | none => rfl
    | some lm =>
      simp only
      rw [ih _ (fun x hx => hne x (List.mem_cons_of_mem _ hx))]
      exact getState_putState_other _ _ _ _ (Ne.symm (hne m (List.mem_cons_self _ _)))

/-- After a debit loop that ran to its end, a record that decoded before the loop decodes to
the same record with the sum of the debits on its key subtracted, modulo `2^64`. -/
theorem debitMaterials_sum (l l1 : Ledger) (materials : List Material)
    (h : debitMaterials l materials = (l1, none)) (key : String) (x : Material)
    (hx : (getState l key).bind unmarshalMaterial = some x) :
    (getState l1 key).bind unmarshalMaterial
      = some { x with Quantity := I64.ofInt (x.Quantity.val - debitSum key materials) } := by
  induction materials generalizing l x with
  | nil =>
    simp only [debitMaterials, Prod.mk.injEq, and_true] at h
    subst h
    simp only [debitSum, sub_zero, I64.ofInt_val, hx]
  | cons m rest ih =>
    rw [debitMaterials_cons] at h
    cases hr : (getState l (m.Name ++ m.Origin)).bind unmarshalMaterial with
    | none => simp only [hr] at h; cases h
    | some lm =>
      simp only [hr] at h
      by_cases hk : m.Name ++ m.Origin = key
      · rw [hk] at hr h
        rw [hx] at hr
        cases hr
        have hx2 : (getState (putState l key (.materialJSON { x with
            Quantity := I64.sub x.Quantity m.Quantity })) key).bind unmarshalMaterial
            = some { x with Quantity := I64.sub x.Quantity m.Quantity } := by
          rw [getState_putState_same]; rfl
        rw [ih _ h _ hx2]
        simp only [debitSum, hk, if_true, I64.val_sub, Option.some.injEq, Material.mk.injEq, true_and,
          and_true]
        apply I64.eq_of_val_eq
        simp only [I64.val_ofInt, wrapInt64_sub_wrap]
        congr 1
        ring
      · have hx2 : (getState (putState l (m.Name ++ m.Origin) (.materialJSON { lm with
            Quantity := I64.sub lm.Quantity m.Quantity })) key).bind unmarshalMaterial = some x := by
          rw [getState_putState_other _ _ _ _ (Ne.symm hk)]; exact hx
        rw [ih _ h _ hx2]
        simp only [debitSum, hk, if_false, zero_add]

theorem debitSum_append (key : String) (xs ys : List Material) :
    debitSum key (xs ++ ys) = debitSum key xs + debitSum key ys := by
  induction xs with
  | nil => simp [debitSum]
  | cons m rest ih =>
    show (if m.Name ++ m.Origin = key then m.Quantity.val else 0) + debitSum key (rest ++ ys)
      = ((if m.Name ++ m.Origin = key then m.Quantity.val else 0) + debitSum key rest) + debitSum key ys
    rw [ih]; ring

/-! ## The validation loop -/

theorem validateMaterials_insufficient (l : Ledger) (triples : List (String × String × String))
    (n o s : String) (q : I64) (b : Bytes) (m : Material)
    (hmem : (n, o, s) ∈ triples) (hq : parseInt64 s = some q)
    (hget : getState l (n ++ o) = some b) (hdec : unmarshalMaterial b = some m)
    (hlt : m.Quantity.val < q.val) (acc : List Material) :
    ∃ msg, validateMaterials l (flattenTriples triples) acc = .error msg := by
  induction triples generalizing acc with
  | nil => simp at hmem
  | cons t rest ih =>
    obtain ⟨n1, o1, s1⟩ := t
    simp only [flattenTriples, validateMaterials]
    rcases List.mem_cons.mp hmem with heq | hrest
    · simp only [Prod.mk.injEq] at heq
      obtain ⟨rfl, rfl, rfl⟩ := heq
      simp [hq, hget, hdec, hlt]
    · cases hp : parseInt64 s1 with
      | none => simp
      | some q1 =>
        cases hg : getState l (n1 ++ o1) with
        | none => simp
        | some b1 =>
          cases hd : unmarshalMaterial b1 with
          | none => simp [hd]
          | some m1 =>
            by_cases hc : m1.Quantity.val < q1.val
            · simp [hd, hc]
            · simp only [hd, hc, if_false]
              exact ih hrest _

/-- One round of the validation loop on a triple that passes. -/
theorem validateMaterials_step (l : Ledger) (n o s : String) (tail : List String)
    (acc : List Material) (q : I64) (b : Bytes) (m : Material)
    (hq : parseInt64 s = some q) (hget : getState l (n ++ o) = some b)
    (hdec : unmarshalMaterial b = some m) (hge : ¬ m.Quantity.val < q.val) :
    validateMaterials l (n :: o :: s :: tail) acc
      = validateMaterials l tail (acc ++ [⟨m.Name, o, q, "Material"⟩]) := by
  simp only [validateMaterials, hq, hget, hdec, hge, if_false]

/-- The validation loop runs through a prefix of triples that all pass, collecting snapshots. -/
theorem validateMaterials_passed (l : Ledger) (passed : List (String × String × String))
    (tail : List String) (hpassed : ∀ t ∈ passed, passesValidation l t = true) (acc : List Material) :
    ∃ acc2, validateMaterials l (flattenTriples passed ++ tail) acc = validateMaterials l tail acc2 := by
  induction passed generalizing acc with
  | nil => exact ⟨acc, rfl⟩
  | cons t rest ih =>
    obtain ⟨n, o, s⟩ := t
    have ht := hpassed (n, o, s) (List.mem_cons_self _ _)
    simp only [passesValidation] at ht
    cases hp : parseInt64 s with
    | none => simp [hp] at ht
    | some q =>
      cases hg : getState l (n ++ o) with
      | none => simp [hp, hg] at ht
      | some b =>
        cases hd : unmarshalMaterial b with
        | none => simp [hp, hg, hd] at ht
        | some m =>
          have hge : ¬ m.Quantity.val < q.val := by simpa [hp, hg, hd] using ht
          show ∃ acc2, validateMaterials l (n :: o :: s :: (flattenTriples rest ++ tail)) acc = _
          rw [validateMaterials_step l n o s _ acc q b m hp hg hd hge]
          exact ih (fun t h => hpassed t (List.mem_cons_of_mem _ h)) _

theorem flattenTriples_append (xs ys : List (String × String × String)) :
    flattenTriples (xs ++ ys) = flattenTriples xs ++ flattenTriples ys := by
  induction xs with
  | nil => rfl
  | cons t rest ih =>
    obtain ⟨n, o, s⟩ := t
    simp [flattenTriples, ih]

/-- What a round of the validation loop that went on to success has read. -/
theorem validateMaterials_cons_ok (l : Ledger) (n o s : String) (tail : List String)
    (acc materials : List Material)
    (h : validateMaterials l (n :: o :: s :: tail) acc = .ok materials) :
    ∃ q b m, parseInt64 s = some q ∧ getState l (n ++ o) = some b ∧
      unmarshalMaterial b = some m ∧ ¬ m.Quantity.val < q.val ∧
      validateMaterials l tail (acc ++ [⟨m.Name, o, q, "Material"⟩]) = .ok materials := by
  cases hp : parseInt64 s with
  | none => simp only [validateMaterials, hp] at h; cases h
  | some q =>
    cases hg : getState l (n ++ o) with
    | none => simp only [validateMaterials, hp, hg] at h; cases h
    | some b =>
      cases hd : unmarshalMaterial b with
      | none => simp only [validateMaterials, hp, hg, hd] at h; cases h
      | some m =>
        by_cases hc : m.Quantity.val < q.val
        · simp only [validateMaterials, hp, hg, hd, hc, if_true] at h; cases h
        · rw [validateMaterials_step l n o s tail acc q b m hp hg hd hc] at h
          exact ⟨q, b, m, rfl, rfl, hd, hc, h⟩

/-- When every validated record carries the requested name, the debits the snapshots add up to
on a key are the required quantities of the triples naming that key. -/
theorem validateMaterials_ok_debitSum (l : Ledger) (triples : List (String × String × String))
    (hname : ∀ t ∈ triples, ∀ b m, getState l (t.1 ++ t.2.1) = some b →
      unmarshalMaterial b = some m → m.Name = t.1)
    (acc materials : List Material)
    (h : validateMaterials l (flattenTriples triples) acc = .ok materials) (key : String) :
    debitSum key materials = debitSum key acc + requiredSum key triples := by
  induction triples generalizing acc with
  | nil =>
    simp only [flattenTriples, validateMaterials, Except.ok.injEq] at h
    subst h
    simp [requiredSum]
  | cons t rest ih =>
    obtain ⟨n, o, s⟩ := t
    obtain ⟨q, b, m, hp, hg, hd, _, hrest⟩ := validateMaterials_cons_ok l n o s _ acc materials h
    have hn : m.Name = n := hname (n, o, s) (List.mem_cons_self _ _) b m hg hd
    rw [ih (fun t ht => hname t (List.mem_cons_of_mem _ ht)) _ hrest, debitSum_append]
    simp only [debitSum, requiredSum, hn, hp, add_zero]
    ring

/-- When every validated record carries the requested name, every snapshot's debit key is the
key of a triple. -/
theorem validateMaterials_ok_keys (l : Ledger) (triples : List (String × String × String))
    (hname : ∀ t ∈ triples, ∀ b m, getState l (t.1 ++ t.2.1) = some b →
      unmarshalMaterial b = some m → m.Name = t.1)
    (acc materials : List Material)
    (h : validateMaterials l (flattenTriples triples) acc = .ok materials) :
    ∀ x ∈ materials, x ∈ acc ∨ ∃ t ∈ triples, x.Name ++ x.Origin = t.1 ++ t.2.1 := by
  induction triples generalizing acc with
  | nil =>
    simp only [flattenTriples, validateMaterials, Except.ok.injEq] at h
    subst h
    intro x hx
    exact Or.inl hx
  | cons t rest ih =>
    obtain ⟨n, o, s⟩ := t
    obtain ⟨q, b, m, hp, hg, hd, _, hrest⟩ := validateMaterials_cons_ok l n o s _ acc materials h
    have hn : m.Name = n := hname (n, o, s) (List.mem_cons_self _ _) b m hg hd
    intro x hx
    rcases ih (fun t ht => hname t (List.mem_cons_of_mem _ ht)) _ hrest x hx with hacc | ⟨t, ht, hkey⟩
    · rcases List.mem_append.mp hacc with h1 | h2
      · exact Or.inl h1
      · simp only [List.mem_singleton] at h2
        subst h2
        exact Or.inr ⟨(n, o, s), List.mem_cons_self _ _, by simp only [hn]⟩
    · exact Or.inr ⟨t, List.mem_cons_of_mem _ ht, hkey⟩

/-! ## Production count -/

/-- The state of the entry under `wandName` after `n` successful productions. -/
theorem producedTimes_entry (wandName : String) (n : Nat) (l : Ledger)
    (h : ProducedTimes wandName n l) :
    (n = 0 ∧ getState l wandName = none) ∨
    (0 < n ∧ ∃ w, getState l wandName = some (.wandJSON w) ∧ w.Name = wandName ∧
      w.Quantity = I64.ofInt n ∧ w.ProductionHistory.length = n ∧
      ∀ p ∈ w.ProductionHistory, p.Available = true) := by
  induction h with
  | start l habs => exact Or.inl ⟨rfl, habs⟩
  | other n l l2 _ hsame ih =>
    rw [hsame]
    exact ih
  | create n l l2 stub triples payload _ hok ih =>
    obtain ⟨materials, wand, l1, _, _, hasm, _, hl2⟩ := createWand_success_inv stub l l2 _ payload hok
    simp only [List.headD_cons] at hasm
    right
    refine ⟨Nat.succ_pos n, ?_⟩
    rcases ih with ⟨hn, habs⟩ | ⟨_, w, hget, hname, hqty, hlen, hall⟩
    · subst hn
      simp only [assembleWand, habs, Except.ok.injEq] at hasm
      subst hasm
      subst hl2
      exact ⟨_, getState_putState_same _ _ _, rfl, rfl, rfl, by simp⟩
    · simp only [assembleWand, hget, unmarshalWand, Except.ok.injEq] at hasm
      subst hasm
      subst hl2
      simp only [hname]
      refine ⟨_, getState_putState_same _ _ _, rfl, ?_, ?_, ?_⟩
      · simp only [hqty, I64.ofInt_add_one]
        rfl
      · simp [hlen]
      · intro p hp
        rcases List.mem_append.mp hp with h1 | h2
        · exact hall p h1
        · simp only [List.mem_singleton] at h2
          subst h2
          rfl

/-! ## The wand quantity invariant -/

theorem availableCount_append_available (history : List Production) (materials : List Material) :
    availableCount (history ++ [⟨materials, true⟩]) = availableCount history + 1 := by
  simp [availableCount, List.filter_append]

theorem availableCount_le_length (history : List Production) :
    availableCount history ≤ history.length :=
  List.length_filter_le _ _

theorem availableCount_markSold (history : List Production) (i : Nat) (entry : Production)
    (hentry : history[i]? = some entry) (havail : entry.Available = true) :
    availableCount (markSold history i) + 1 = availableCount history := by
  induction history generalizing i with
  | nil => simp at hentry
  | cons p ps ih =>
    cases i with
    | zero =>
      simp only [List.getElem?_cons_zero, Option.some.injEq] at hentry
      subst hentry
      simp [markSold, availableCount, List.filter_cons, havail]
    | succ i =>
      simp only [List.getElem?_cons_succ] at hentry
      have := ih i hentry
      simp only [availableCount] at this
      cases hp : p.Available <;> simp [markSold, availableCount, List.filter_cons, hp] <;> omega

theorem unmarshalWand_materialJSON_kind (m : Material) (w : Wand)
    (h : unmarshalWand (.materialJSON m) = some w) : w.ObjectType = m.ObjectType := by
  simp only [unmarshalWand, Option.some.injEq] at h
  subst h
  rfl

theorem holdsWandKind_false (l : Ledger) (key : String) (m : Material)
    (h : holdsWandKind l key = false)
    (hread : (getState l key).bind unmarshalMaterial = some m) : m.ObjectType ≠ "Wand" := by
  simpa [holdsWandKind, hread] using h

theorem holdsWandKind_putState_same (l : Ledger) (key : String) (m : Material) :
    holdsWandKind (putState l key (.materialJSON m)) key = decide (m.ObjectType = "Wand") := by
  unfold holdsWandKind
  rw [getState_putState_same]
  rfl

/-- A write keeps the invariant when the written bytes satisfy it. -/
theorem wandsCounted_putState (l : Ledger) (key : String) (value : Bytes)
    (hinv : WandsCounted l)
    (hvalue : ∀ w, unmarshalWand value = some w → w.ObjectType = "Wand" →
      w.Quantity = I64.ofInt (availableCount w.ProductionHistory)) :
    WandsCounted (putState l key value) := by
  intro k b w hget hdec hkind
  by_cases hk : k = key
  · subst hk
    rw [getState_putState_same] at hget
    cases hget
    exact hvalue w hdec hkind
  · rw [getState_putState_other _ _ _ _ hk] at hget
    exact hinv k b w hget hdec hkind

/-- Writing the JSON of a `Material` that does not carry the Wand discriminator keeps the
invariant. -/
theorem wandsCounted_putState_material (l : Ledger) (key : String) (m : Material)
    (hinv : WandsCounted l) (hkind : m.ObjectType ≠ "Wand") :
    WandsCounted (putState l key (.materialJSON m)) := by
  apply wandsCounted_putState l key _ hinv
  intro w hdec hw
  rw [unmarshalWand_materialJSON_kind m w hdec] at hw
  exact absurd hw hkind

theorem wandsCounted_addMaterial (l : Ledger) (args : List String) (hinv : WandsCounted l)
    (hguard : keepsKindsApart l "addMaterial" args = true) :
    WandsCounted (addMaterial l args).2 := by
  unfold addMaterial
  split
  · rename_i name origin qty
    simp only [keepsKindsApart, if_true, Bool.not_eq_true'] at hguard
    cases hp : parseInt64 qty with
    | none => exact hinv
    | some q =>
      simp only
      cases hm : getMaterial l name origin with
      | error e => exact hinv
      | ok m =>
        simp only
        apply wandsCounted_putState_material _ _ _ hinv
        show m.ObjectType ≠ "Wand"
        unfold getMaterial at hm
        split_ifs at hm
        cases hg : getState l (name ++ origin) with
        | none =>
          simp only [hg, Except.ok.injEq] at hm
          subst hm
          show "Material" ≠ "Wand"
          decide
        | some b =>
          cases hd : unmarshalMaterial b with
          | none => simp only [hg, hd] at hm; cases hm
          | some x =>
            simp only [hg, hd, Except.ok.injEq] at hm
            subst hm
            exact holdsWandKind_false l _ _ hguard (by simp [hg, hd])
  · exact hinv

/-- The debit loop keeps the invariant when no snapshot's debit key holds a record of the Wand
kind, whether it runs to its end or stops early. -/
theorem wandsCounted_debitMaterials (l : Ledger) (materials : List Material)
    (hinv : WandsCounted l)
    (hguard : ∀ m ∈ materials, holdsWandKind l (m.Name ++ m.Origin) = false) :
    WandsCounted (debitMaterials l materials).1 := by
  induction materials generalizing l with
  | nil => exact hinv
  | cons m rest ih =>
    rw [debitMaterials_cons]
    cases hr : (getState l (m.Name ++ m.Origin)).bind unmarshalMaterial with
    | none => exact hinv
    | some lm =>
      simp only
      have hkind : lm.ObjectType ≠ "Wand" :=
        holdsWandKind_false l _ lm (hguard m (List.mem_cons_self _ _)) hr
      apply ih
      · exact wandsCounted_putState_material _ _ _ hinv hkind
      · intro x hx
        by_cases hk : x.Name ++ x.Origin = m.Name ++ m.Origin
        · rw [hk, holdsWandKind_putState_same]
          exact decide_eq_false hkind
        · have := hguard x (List.mem_cons_of_mem _ hx)
          simp only [holdsWandKind, getState_putState_other _ _ _ _ hk]
          simpa only [holdsWandKind] using this

/-- The wand `createWand` assembles satisfies the invariant when the ledger does. -/
theorem assembleWand_counted (l : Ledger) (wandName : String) (materials : List Material)
    (wand : Wand) (hinv : WandsCounted l)
    (h : assembleWand l wandName materials = .ok wand) (hkind : wand.ObjectType = "Wand") :
    wand.Quantity = I64.ofInt (availableCount wand.ProductionHistory) := by
  unfold assembleWand at h
  cases hg : getState l wandName with
  | none =>
    simp only [hg, Except.ok.injEq] at h
    subst h
    rfl
  | some b =>
    cases hd : unmarshalWand b with
    | none => simp only [hg, hd] at h; cases h
    | some w =>
      simp only [hg, hd, Except.ok.injEq] at h
      subst h
      simp only at hkind ⊢
      rw [hinv wandName b w hg hd hkind, I64.ofInt_add_one, availableCount_append_available]
      rfl

/-- The ledger `createWand` returns: the one it was given, or the one the debit loop left,
with the assembled wand written at the end when the loop ran through. -/
theorem createWand_ledger_cases (stub : Caller) (l : Ledger) (args : List String) :
    (createWand stub l args).2 = l ∨
    ∃ materials wand, validateMaterials l (args.drop 1) [] = .ok materials ∧
      assembleWand l (args.headD "") materials = .ok wand ∧
      ((createWand stub l args).2 = (debitMaterials l materials).1 ∨
       (createWand stub l args).2
        = putState (debitMaterials l materials).1 wand.Name (.wandJSON wand)) := by
  unfold createWand
  cases horg : getOrg stub with
  | error e => exact Or.inl rfl
  | ok org =>
    dsimp only
    by_cases hp : org ≠ "org0-example-com"
    · rw [if_pos hp]; exact Or.inl rfl
    · by_cases h1 : args.length < 4
      · rw [if_neg hp, if_pos h1]; exact Or.inl rfl
      · by_cases h2 : args.length % 3 ≠ 1 ∨ args.length = 1
        · rw [if_neg hp, if_neg h1, if_pos h2]; exact Or.inl rfl
        · rw [if_neg hp, if_neg h1, if_neg h2]
          cases hv : validateMaterials l (args.drop 1) [] with
          | error e => exact Or.inl rfl
          | ok materials =>
            dsimp only
            cases ha : assembleWand l (args.headD "") materials with
            | error e => exact Or.inl rfl
            | ok wand =>
              dsimp only
              right
              refine ⟨materials, wand, rfl, ha, ?_⟩
              cases hd : debitMaterials l materials with
              | mk l1 err =>
                cases err with
                | some e => exact Or.inl rfl
                | none => exact Or.inr rfl

theorem wandsCounted_createWand (stub : Caller) (l : Ledger) (args : List String)
    (hinv : WandsCounted l) (hguard : keepsKindsApart l "createWand" args = true) :
    WandsCounted (createWand stub l args).2 := by
  rcases createWand_ledger_cases stub l args with h | ⟨materials, wand, hv, ha, h⟩
  · rw [h]; exact hinv
  · have hg : ∀ m ∈ materials, holdsWandKind l (m.Name ++ m.Origin) = false := by
      have hd : ¬ ("createWand" = "addMaterial") := by decide
      simp only [keepsKindsApart, hd, if_false, if_true, hv, List.all_eq_true,
        Bool.not_eq_true'] at hguard
      exact hguard
    have hdeb := wandsCounted_debitMaterials l materials hinv hg
    rcases h with h | h
    · rw [h]; exact hdeb
    · rw [h]
      apply wandsCounted_putState _ _ _ hdeb
      intro w hdec hkind
      simp only [unmarshalWand, Option.some.injEq] at hdec
      subst hdec
      exact assembleWand_counted l _ materials wand hinv ha hkind

/-- The outcome of `sellWand`: the ledger it was given, or a success. -/
theorem sellWand_ledger_cases (stub : Caller) (l : Ledger) (args : List String) :
    (sellWand stub l args).2 = l ∨ ∃ payload, (sellWand stub l args).1 = .success payload := by
  unfold sellWand
  repeat' split
  all_goals first | exact Or.inl rfl | exact Or.inr ⟨_, rfl⟩

theorem wandsCounted_sellWand (stub : Caller) (l : Ledger) (args : List String)
    (hinv : WandsCounted l) : WandsCounted (sellWand stub l args).2 := by
  rcases sellWand_ledger_cases stub l args with h | ⟨payload, h⟩
  · rw [h]; exact hinv
  · have hpair : sellWand stub l args = (.success payload, (sellWand stub l args).2) := by
      rw [← h]
    obtain ⟨wandName, index, b, i, w, entry, _, _, hget, hdec, _, _, hentry, havail, hl2⟩ :=
      sellWand_success_inv stub l _ args payload hpair
    rw [hl2]
    apply wandsCounted_putState _ _ _ hinv
    intro w2 hdec2 hkind
    simp only [unmarshalWand, Option.some.injEq] at hdec2
    subst hdec2
    simp only at hkind ⊢
    rw [hinv wandName b w hget hdec hkind, I64.ofInt_sub_one]
    have hcount := availableCount_markSold w.ProductionHistory i.val.toNat entry hentry havail
    congr 1
    omega

theorem wandsCounted_listMaterials (l : Ledger) (hinv : WandsCounted l) :
    WandsCounted (listMaterials l).2 := hinv

theorem wandsCounted_listWands (l : Ledger) (hinv : WandsCounted l) :
    WandsCounted (listWands l).2 := hinv

/-- Every invocation that keeps the kinds apart keeps the invariant. -/
theorem wandsCounted_Invoke (stub : Caller) (l : Ledger) (function : String) (args : List String)
    (hinv : WandsCounted l) (hguard : keepsKindsApart l function args = true) :
    WandsCounted (Invoke stub l function args).2 := by
  unfold Invoke
  by_cases h1 : function = "addMaterial"
  · subst h1
    simp only [if_true]
    exact wandsCounted_addMaterial l args hinv hguard
  · by_cases h2 : function = "listMaterials"
    · simp only [h1, h2, if_false, if_true]
      exact wandsCounted_listMaterials l hinv
    · by_cases h3 : function = "createWand"
      · subst h3
        simp only [h1, h2, if_false, if_true]
        exact wandsCounted_createWand stub l args hinv hguard
      · by_cases h4 : function = "sellWand"
        · simp only [h1, h2, h3, h4, if_false, if_true]
          exact wandsCounted_sellWand stub l args hinv
        · by_cases h5 : function = "listWands"
          · simp only [h1, h2, h3, h4, h5, if_false, if_true]
            exact wandsCounted_listWands l hinv
          · simp only [h1, h2, h3, h4, h5, if_false]
            exact hinv

theorem reachableApart_wandsCounted (l : Ledger) (h : ReachableApart l) : WandsCounted l := by
  induction h with
  | empty =>
    intro key b w hget
    simp [getState] at hget
  | invoke stub l function args _ hguard ih =>
    exact wandsCounted_Invoke stub l function args ih hguard

/-! ## The shape of the arguments -/

/-- The validation loop sees its arguments as the triples of `loopTriples`. -/
theorem validateMaterials_loopTriples (l : Ledger) (xs : List String) (acc : List Material) :
    validateMaterials l xs acc = validateMaterials l (flattenTriples (loopTriples xs)) acc := by
  induction xs, acc using validateMaterials.induct l with
  | case1 n o s rest acc hp =>
    simp only [loopTriples, flattenTriples, validateMaterials, hp]
  | case2 n o s rest acc q hp hg =>
    simp only [loopTriples, flattenTriples, validateMaterials, hp, hg]
  | case3 n o s rest acc q hp b hg hd =>
    simp only [loopTriples, flattenTriples, validateMaterials, hp, hg, hd]
  | case4 n o s rest acc q hp b hg m hd hlt =>
    simp only [loopTriples, flattenTriples, validateMaterials, hp, hg, hd, hlt, if_true]
  | case5 n o s rest acc q hp b hg m hd hlt ih =>
    simp only [loopTriples, flattenTriples, validateMaterials, hp, hg, hd, hlt, if_false]
    exact ih
  | case6 xs acc hx =>
    have h1 : loopTriples xs = [] := by
      unfold loopTriples
      split
      · exact absurd rfl (hx _ _ _ _)
      · rfl
    rw [h1, flattenTriples]
    unfold validateMaterials
    split
    · exact absurd rfl (hx _ _ _ _)
    · simp [validateMaterials]

theorem loopTriples_of_length (xs : List String) (h : xs.length % 3 = 0) :
    flattenTriples (loopTriples xs) = xs ∧ (loopTriples xs).length = xs.length / 3 := by
  induction xs using loopTriples.induct with
  | case1 n o s rest ih =>
    have hrest : rest.length % 3 = 0 := by
      simp only [List.length_cons] at h; omega
    obtain ⟨h1, h2⟩ := ih hrest
    simp only [loopTriples, flattenTriples, h1, List.length_cons, h2, true_and]
    omega
  | case2 xs hx =>
    match xs, hx, h with
    | [], _, _ => simp [loopTriples, flattenTriples]
    | [_], _, h => simp at h
    | [_, _], _, h => simp at h
    | n :: o :: s :: rest, hx, _ => exact absurd rfl (hx n o s rest)

/-- A validation loop that ran through has collected one snapshot per triple. -/
theorem validateMaterials_ok_length (l : Ledger) (triples : List (String × String × String))
    (acc materials : List Material)
    (h : validateMaterials l (flattenTriples triples) acc = .ok materials) :
    materials.length = acc.length + triples.length := by
  induction triples generalizing acc with
  | nil =>
    simp only [flattenTriples, validateMaterials, Except.ok.injEq] at h
    subst h
    rfl
  | cons t rest ih =>
    obtain ⟨n, o, s⟩ := t
    obtain ⟨q, b, m, _, _, _, _, hrest⟩ := validateMaterials_cons_ok l n o s _ acc materials h
    rw [ih _ hrest]
    simp only [List.length_append, List.length_cons, List.length_nil]
    omega

/-- No failure of the validation loop is one of the shape failures. -/
theorem validateMaterials_error_not_shape (l : Ledger) (xs : List String) (acc : List Material)
    (e : String) (h : validateMaterials l xs acc = .error e) : e ∉ shapeErrors := by
  induction xs, acc using validateMaterials.induct l with
  | case1 n o s rest acc hp =>
    simp only [validateMaterials, hp, Except.error.injEq] at h
    subst h
    decide
  | case2 n o s rest acc q hp hg =>
    simp only [validateMaterials, hp, hg, Except.error.injEq] at h
    subst h
    intro hmem
    simp only [shapeErrors, List.mem_cons, List.mem_singleton, List.not_mem_nil, or_false] at hmem
    rcases hmem with h1 | h1
    · have h2 := congrArg (fun s => s.data.head?) h1
      simp [String.data_append] at h2
    · have h2 := congrArg (fun s => s.data.head?) h1
      simp [String.data_append] at h2
  | case3 n o s rest acc q hp b hg hd =>
    simp only [validateMaterials, hp, hg, hd, Except.error.injEq] at h
    subst h
    decide
  | case4 n o s rest acc q hp b hg m hd hlt =>
    simp only [validateMaterials, hp, hg, hd, hlt, if_true, Except.error.injEq] at h
    subst h
    intro hmem
    simp only [shapeErrors, List.mem_cons, List.mem_singleton, List.not_mem_nil, or_false] at hmem
    rcases hmem with h1 | h1
    · have h2 := congrArg (fun s => s.data.head?) h1
      simp [String.data_append] at h2
    · have h2 := congrArg (fun s => s.data.head?) h1
      simp [String.data_append] at h2
  | case5 n o s rest acc q hp b hg m hd hlt ih =>
    simp only [validateMaterials, hp, hg, hd, hlt, if_false] at h
    exact ih h
  | case6 xs acc hx =>
    unfold validateMaterials at h
    split at h
    · exact absurd rfl (hx _ _ _ _)
    · cases h

/-- The only failure of the debit loop. -/
theorem debitMaterials_error (l l1 : Ledger) (materials : List Material) (e : String)
    (h : debitMaterials l materials = (l1, some e)) :
    e = "Erro ao deserializar material para atualização." := by
  induction materials generalizing l with
  | nil => simp [debitMaterials] at h
  | cons m rest ih =>
    rw [debitMaterials_cons] at h
    cases hr : (getState l (m.Name ++ m.Origin)).bind unmarshalMaterial with
    | none =>
      simp only [hr, Prod.mk.injEq, Option.some.injEq] at h
      exact h.2.symm
    | some lm =>
      simp only [hr] at h
      exact ih _ h

/-- For the privileged caller, an argument list that passes the two shape checks goes on to the
validation loop. -/
theorem createWand_of_shape (stub : Caller) (l : Ledger) (args : List String)
    (hpriv : getOrg stub = .ok "org0-example-com")
    (h1 : ¬ args.length < 4) (h2 : ¬ (args.length % 3 ≠ 1 ∨ args.length = 1)) :
    createWand stub l args =
      match validateMaterials l (args.drop 1) [] with
      | .error msg => (.error msg, l)
      | .ok materials =>
        match assembleWand l (args.headD "") materials with
        | .error msg => (.error msg, l)
        | .ok wand =>
          match debitMaterials l materials with
          | (l1, some msg) => (.error msg, l1)
          | (l1, none) =>
            (.success (.text ("Varinha '" ++ wand.Name ++ "' criada ou atualizada com sucesso.")),
              putState l1 wand.Name (.wandJSON wand)) := by
  unfold createWand
  simp only [hpriv, ne_eq, not_true_eq_false, if_false]
  rw [if_neg h1, if_neg h2]

theorem assembleWand_error (l : Ledger) (wandName : String) (materials : List Material) (e : String)
    (h : assembleWand l wandName materials = .error e) :
    e = "Erro ao desserializar varinha existente." := by
  unfold assembleWand at h
  cases hg : getState l wandName with
  | none => simp only [hg] at h; cases h
  | some b =>
    cases hd : unmarshalWand b with
    | none =>
      simp only [hg, hd, Except.error.injEq] at h
      exact h.symm
    | some w => simp only [hg, hd] at h; cases h

/-- Past the shape checks, `createWand` never answers with a shape failure. -/
theorem createWand_of_shape_not_shapeError (stub : Caller) (l : Ledger) (args : List String)
    (hpriv : getOrg stub = .ok "org0-example-com")
    (h1 : ¬ args.length < 4) (h2 : ¬ (args.length % 3 ≠ 1 ∨ args.length = 1))
    (e : String) (he : (createWand stub l args).1 = .error e) : e ∉ shapeErrors := by
  rw [createWand_of_shape stub l args hpriv h1 h2] at he
  cases hv : validateMaterials l (args.drop 1) [] with
  | error msg =>
    simp only [hv, Response.error.injEq] at he
    subst he
    exact validateMaterials_error_not_shape l _ _ _ hv
  | ok materials =>
    simp only [hv] at he
    cases ha : assembleWand l (args.headD "") materials with
    | error msg =>
      simp only [ha, Response.error.injEq] at he
      subst he
      rw [assembleWand_error l _ _ _ ha]
      decide
    | ok wand =>
      simp only [ha] at he
      cases hd : debitMaterials l materials with
      | mk l1 err =>
        cases err with
        | some msg =>
          simp only [hd, Response.error.injEq] at he
          subst he
          rw [debitMaterials_error l l1 materials _ hd]
          decide
        | none =>
          simp only [hd] at he
          cases he

/-! ## The catalogs -/

theorem scanMaterials_eq (l : Ledger) (acc : List Material) :
    scanMaterials l acc = acc ++ l.filterMap materialEntry := by
  induction l generalizing acc with
  | nil => simp [scanMaterials]
  | cons e rest ih =>
    obtain ⟨k, v⟩ := e
    cases hd : unmarshalMaterial v with
    | none => simp [scanMaterials, materialEntry, List.filterMap_cons, hd, ih]
    | some m =>
      by_cases hk : m.ObjectType = "Material"
      · simp [scanMaterials, materialEntry, List.filterMap_cons, hd, hk, ih]
      · simp [scanMaterials, materialEntry, List.filterMap_cons, hd, hk, ih]

theorem scanWands_eq (l : Ledger) (acc : List Wand) :
    scanWands l acc = acc ++ l.filterMap wandEntry := by
  induction l generalizing acc with
  | nil => simp [scanWands]
  | cons e rest ih =>
    obtain ⟨k, v⟩ := e
    cases hd : unmarshalWand v with
    | none => simp [scanWands, wandEntry, List.filterMap_cons, hd, ih]
    | some w =>
      by_cases hk : w.ObjectType = "Wand"
      · simp [scanWands, wandEntry, List.filterMap_cons, hd, hk, ih]
      · simp [scanWands, wandEntry, List.filterMap_cons, hd, hk, ih]

theorem materialEntry_eq_some (entry : String × Bytes) (m : Material) :
    materialEntry entry = some m ↔ unmarshalMaterial entry.2 = some m ∧ m.ObjectType = "Material" := by
  unfold materialEntry
  cases hd : unmarshalMaterial entry.2 with
  | none => simp
  | some x =>
    by_cases hk : x.ObjectType = "Material"
    · simp only [hk, if_true, Option.some.injEq]
      constructor
      · intro h; subst h; exact ⟨rfl, hk⟩
      · intro h; exact h.1
    · simp only [hk, if_false, Option.some.injEq]
      constructor
      · intro h; cases h
      · intro h; exact absurd (h.1 ▸ h.2) hk

theorem wandEntry_eq_some (entry : String × Bytes) (w : Wand) :
    wandEntry entry = some w ↔ unmarshalWand entry.2 = some w ∧ w.ObjectType = "Wand" := by
  unfold wandEntry
  cases hd : unmarshalWand entry.2 with
  | none => simp
  | some x =>
    by_cases hk : x.ObjectType = "Wand"
    · simp only [hk, if_true, Option.some.injEq]
      constructor
      · intro h; subst h; exact ⟨rfl, hk⟩
      · intro h; exact h.1
    · simp only [hk, if_false, Option.some.injEq]
      constructor
      · intro h; cases h
      · intro h; exact absurd (h.1 ▸ h.2) hk

/-! ## Snapshots and histories -/

/-- A validation loop that ran through has collected the snapshots of its triples, in order. -/
theorem validateMaterials_ok_snapshots (l : Ledger) (triples : List (String × String × String))
    (acc materials : List Material)
    (h : validateMaterials l (flattenTriples triples) acc = .ok materials) :
    materials.map some = acc.map some ++ triples.map (snapshotOf l) := by
  induction triples generalizing acc with
  | nil =>
    simp only [flattenTriples, validateMaterials, Except.ok.injEq] at h
    subst h
    simp
  | cons t rest ih =>
    obtain ⟨n, o, s⟩ := t
    obtain ⟨q, b, m, hp, hg, hd, _, hrest⟩ := validateMaterials_cons_ok l n o s _ acc materials h
    rw [ih _ hrest]
    simp [snapshotOf, hp, hg, hd]

/-- The wand `createWand` assembles has the stored history with one available entry appended,
holding the validated snapshots. -/
theorem assembleWand_history (l : Ledger) (wandName : String) (materials : List Material)
    (wand : Wand) (h : assembleWand l wandName materials = .ok wand) :
    wand.ProductionHistory = storedHistory l wandName ++ [⟨materials, true⟩] := by
  unfold assembleWand at h
  unfold storedHistory
  cases hg : getState l wandName with
  | none =>
    simp only [hg, Except.ok.injEq] at h
    subst h
    rfl
  | some b =>
    cases hd : unmarshalWand b with
    | none => simp only [hg, hd] at h; cases h
    | some w =>
      simp only [hg, hd, Except.ok.injEq] at h
      subst h
      simp [hd]

theorem map_Materials_markSold (ps : List Production) (i : Nat) :
    (markSold ps i).map (fun p => p.Materials) = ps.map (fun p => p.Materials) := by
  induction ps generalizing i with
  | nil => rfl
  | cons p ps ih => cases i <;> simp [markSold, ih]

/-- Selling never makes an entry available. -/
theorem markSold_keeps_sold (ps : List Production) (i j : Nat) (p q : Production)
    (hp : ps[j]? = some p) (hq : (markSold ps i)[j]? = some q) (hsold : p.Available = false) :
    q.Available = false := by
  by_cases hji : j = i
  · subst hji
    rw [getElem?_markSold_same ps j p hp] at hq
    cases hq
    rfl
  · rw [getElem?_markSold_other ps i j hji, hp] at hq
    cases hq
    exact hsold

/-! ## Replenishing -/

theorem entriesUnder_of_absent (l : Ledger) (key : String) (h : getState l key = none) :
    entriesUnder l key = 0 := by
  induction l with
  | nil => rfl
  | cons e rest ih =>
    obtain ⟨k, v⟩ := e
    by_cases hk : k = key
    · simp [getState, hk] at h
    · simp only [getState, hk, if_false] at h
      have := ih h
      simp only [entriesUnder] at this ⊢
      simp [List.filter_cons, hk, this]

theorem entriesUnder_putState_absent (l : Ledger) (key : String) (value : Bytes)
    (h : getState l key = none) : entriesUnder (putState l key value) key = 1 := by
  induction l with
  | nil => simp [putState, entriesUnder]
  | cons e rest ih =>
    obtain ⟨k, v⟩ := e
    by_cases hk : k = key
    · simp [getState, hk] at h
    · have hrest : getState rest key = none := by simpa [getState, hk] using h
      have h0 := entriesUnder_of_absent rest key hrest
      by_cases hlt : keyLt key k = true
      · simp only [entriesUnder] at h0 ⊢
        simp [putState, hk, hlt, List.filter_cons, h0]
      · have := ih hrest
        simp only [entriesUnder] at this ⊢
        simp [putState, hk, hlt, List.filter_cons, this]

/-- A second write under a key that was absent replaces the first. -/
theorem putState_putState_absent (l : Ledger) (key : String) (v1 v2 : Bytes)
    (h : getState l key = none) :
    putState (putState l key v1) key v2 = putState l key v2 := by
  induction l with
  | nil => simp [putState]
  | cons e rest ih =>
    obtain ⟨k, v⟩ := e
    by_cases hk : k = key
    · simp [getState, hk] at h
    · have hrest : getState rest key = none := by simpa [getState, hk] using h
      by_cases hlt : keyLt key k = true
      · simp [putState, hk, hlt]
      · simp [putState, hk, hlt, ih hrest]

/-- The replenishment of an absent key. -/
theorem addMaterial_of_absent (l : Ledger) (name origin qty : String) (delta : I64)
    (hname : name ≠ "") (horigin : origin ≠ "") (hparse : parseInt64 qty = some delta)
    (habs : getState l (name ++ origin) = none) :
    addMaterial l [name, origin, qty]
      = (.success .nil, putState l (name ++ origin) (.materialJSON ⟨name, origin, delta, "Material"⟩)) := by
  have hq : I64.add (I64.ofInt 0) delta = delta := by
    apply I64.eq_of_val_eq
    have h0 : (I64.ofInt 0).val = 0 := by decide
    rw [I64.val_add, h0, zero_add]
    exact wrapInt64_of_range _ delta.lo delta.hi
  simp [addMaterial, getMaterial, hparse, hname, horigin, habs, hq]

/-- The replenishment of a key that holds a record. -/
theorem addMaterial_of_present (l : Ledger) (name origin qty : String) (delta : I64)
    (b : Bytes) (m : Material)
    (hname : name ≠ "") (horigin : origin ≠ "") (hparse : parseInt64 qty = some delta)
    (hget : getState l (name ++ origin) = some b) (hdec : unmarshalMaterial b = some m) :
    addMaterial l [name, origin, qty]
      = (.success .nil, putState l (name ++ origin)
          (.materialJSON { m with Quantity := I64.add m.Quantity delta })) := by
  simp [addMaterial, getMaterial, hparse, hname, horigin, hget, hdec]

/-! ## Debits under the pre-check -/

/-- A validation loop that ran through has checked every triple. -/
theorem validateMaterials_ok_all (l : Ledger) (triples : List (String × String × String))
    (acc materials : List Material)
    (h : validateMaterials l (flattenTriples triples) acc = .ok materials) :
    ∀ t ∈ triples, ∃ q b m, parseInt64 t.2.2 = some q ∧ getState l (t.1 ++ t.2.1) = some b ∧
      unmarshalMaterial b = some m ∧ ¬ m.Quantity.val < q.val := by
  induction triples generalizing acc with
  | nil => intro t ht; simp at ht
  | cons t0 rest ih =>
    obtain ⟨n, o, s⟩ := t0
    obtain ⟨q, b, m, hp, hg, hd, hge, hrest⟩ := validateMaterials_cons_ok l n o s _ acc materials h
    intro t ht
    rcases List.mem_cons.mp ht with heq | hmem
    · subst heq
      exact ⟨q, b, m, hp, hg, hd, hge⟩
    · exact ih _ hrest t hmem

theorem requiredSum_of_no_key (key : String) (triples : List (String × String × String))
    (h : ∀ t ∈ triples, t.1 ++ t.2.1 ≠ key) : requiredSum key triples = 0 := by
  induction triples with
  | nil => rfl
  | cons t0 rest ih =>
    obtain ⟨n, o, s⟩ := t0
    have h0 : n ++ o ≠ key := h (n, o, s) (List.mem_cons_self _ _)
    simp only [requiredSum, h0, if_false, zero_add]
    exact ih (fun t ht => h t (List.mem_cons_of_mem _ ht))

/-- With pairwise distinct keys, the sum of the requirements on a triple's key is that
triple's requirement. -/
theorem requiredSum_of_nodup (key : String) (triples : List (String × String × String))
    (hnodup : (triples.map (fun t => t.1 ++ t.2.1)).Nodup)
    (t : String × String × String) (q : I64) (ht : t ∈ triples) (hkey : t.1 ++ t.2.1 = key)
    (hq : parseInt64 t.2.2 = some q) : requiredSum key triples = q.val := by
  induction triples with
  | nil => simp at ht
  | cons t0 rest ih =>
    obtain ⟨n, o, s⟩ := t0
    simp only [List.map_cons, List.nodup_cons, List.mem_map, not_exists, not_and] at hnodup
    obtain ⟨hfresh, hrest⟩ := hnodup
    rcases List.mem_cons.mp ht with heq | hmem
    · subst heq
      simp only at hkey hq
      have h0 : requiredSum key rest = 0 := by
        apply requiredSum_of_no_key
        intro x hx hxk
        exact hfresh x hx (hxk.trans hkey.symm)
      simp only [requiredSum, hkey, if_true, hq, h0, add_zero]
    · have h0 : n ++ o ≠ key := by
        intro hk
        exact hfresh t hmem (hkey.trans hk.symm)
      simp only [requiredSum, h0, if_false, zero_add]
      exact ih hrest hmem

/-- The ledger after a successful `createWand`, key by key, away from the key of the wand. -/
theorem createWand_debited (stub : Caller) (l l2 : Ledger) (wandName : String)
    (triples : List (String × String × String)) (payload : Payload)
    (hok : createWand stub l (wandName :: flattenTriples triples) = (.success payload, l2))
    (hname : ∀ t ∈ triples, ∀ b m, getState l (t.1 ++ t.2.1) = some b →
      unmarshalMaterial b = some m → m.Name = t.1)
    (k : String) (hk : k ≠ wandKey l wandName) :
    (∀ x, (getState l k).bind unmarshalMaterial = some x →
      ∃ x2, (getState l2 k).bind unmarshalMaterial = some x2 ∧
        x2.Name = x.Name ∧ x2.Origin = x.Origin ∧ x2.ObjectType = x.ObjectType ∧
        x2.Quantity.val = wrapInt64 (x.Quantity.val - requiredSum k triples) ∧
        (minInt64 ≤ x.Quantity.val - requiredSum k triples →
          x.Quantity.val - requiredSum k triples ≤ maxInt64 →
          x2.Quantity.val = x.Quantity.val - requiredSum k triples)) ∧
    ((∀ t ∈ triples, t.1 ++ t.2.1 ≠ k) → getState l2 k = getState l k) := by
  obtain ⟨materials, wand, l1, _, hval, hasm, hdeb, hl2⟩ := createWand_success_inv stub l l2 _ payload hok
  simp only [List.drop_succ_cons, List.drop_zero, List.headD_cons] at hval hasm
  have hkey : k ≠ wand.Name := by rw [assembleWand_name l wandName materials wand hasm]; exact hk
  have hl2k : getState l2 k = getState l1 k := by
    rw [hl2]; exact getState_putState_other _ _ _ _ hkey
  constructor
  · intro x hx
    refine ⟨{ x with Quantity := I64.ofInt (x.Quantity.val - requiredSum k triples) },
      ?_, rfl, rfl, rfl, rfl, ?_⟩
    · rw [hl2k, debitMaterials_sum l l1 materials hdeb k x hx,
        validateMaterials_ok_debitSum l triples hname [] materials hval k]
      simp only [debitSum, zero_add]
    · intro hlo hhi
      exact wrapInt64_of_range _ hlo hhi
  · intro hno
    rw [hl2k]
    have h1 : l1 = (debitMaterials l materials).1 := by rw [hdeb]
    rw [h1]
    apply debitMaterials_other
    intro m hm
    rcases validateMaterials_ok_keys l triples hname [] materials hval m hm with hnil | ⟨t, ht, hkey2⟩
    · simp at hnil
    · rw [hkey2]
      exact hno t ht

/-! ## Arguments and snapshots by index -/

theorem loopTriples_getElem (xs : List String) (i : Nat) (t : String × String × String)
    (h : (loopTriples xs)[i]? = some t) :
    xs[3 * i]? = some t.1 ∧ xs[3 * i + 1]? = some t.2.1 ∧ xs[3 * i + 2]? = some t.2.2 := by
  induction xs using loopTriples.induct generalizing i with
  | case1 n o s rest ih =>
    cases i with
    | zero =>
      simp only [loopTriples, List.getElem?_cons_zero, Option.some.injEq] at h
      subst h
      simp
    | succ j =>
      simp only [loopTriples, List.getElem?_cons_succ] at h
      obtain ⟨h1, h2, h3⟩ := ih j h
      have e1 : 3 * (j + 1) = (3 * j) + 1 + 1 + 1 := by ring
      have e2 : 3 * (j + 1) + 1 = (3 * j + 1) + 1 + 1 + 1 := by ring
      have e3 : 3 * (j + 1) + 2 = (3 * j + 2) + 1 + 1 + 1 := by ring
      refine ⟨?_, ?_, ?_⟩
      · rw [e1]; simp only [List.getElem?_cons_succ]; exact h1
      · rw [e2]; simp only [List.getElem?_cons_succ]; exact h2
      · rw [e3]; simp only [List.getElem?_cons_succ]; exact h3
  | case2 xs hx =>
    have h1 : loopTriples xs = [] := by
      unfold loopTriples
      split
      · exact absurd rfl (hx _ _ _ _)
      · rfl
    rw [h1] at h
    simp at h

/-- Each collected snapshot comes from the triple at its index. -/
theorem snapshots_getElem (l : Ledger) (triples : List (String × String × String))
    (materials : List Material) (hmap : materials.map some = triples.map (snapshotOf l))
    (i : Nat) (m : Material) (hm : materials[i]? = some m) :
    ∃ t q stored, triples[i]? = some t ∧ parseInt64 t.2.2 = some q ∧
      (getState l (t.1 ++ t.2.1)).bind unmarshalMaterial = some stored ∧
      m = ⟨stored.Name, t.2.1, q, "Material"⟩ := by
  have hi := congrArg (fun xs => xs[i]?) hmap
  simp only [List.getElem?_map, hm, Option.map_some'] at hi
  cases ht : triples[i]? with
  | none => simp [ht] at hi
  | some t =>
    simp only [ht, Option.map_some', Option.some.injEq] at hi
    cases hp : parseInt64 t.2.2 with
    | none => simp [snapshotOf, hp] at hi
    | some q =>
      cases hd : (getState l (t.1 ++ t.2.1)).bind unmarshalMaterial with
      | none => simp [snapshotOf, hp, hd] at hi
      | some stored =>
        simp only [snapshotOf, hp, hd, Option.some.injEq] at hi
        exact ⟨t, q, stored, rfl, hp, hd, hi⟩

/-- The not-found failure is none of the failures that reject the arguments as such. -/
theorem notFound_not_invalidArgument (n o : String) :
    "Material " ++ n ++ " de origem " ++ o ++ " não encontrado." ∉ invalidArgumentErrors := by
  intro hmem
  simp only [invalidArgumentErrors, shapeErrors, List.cons_append, List.nil_append, List.mem_cons,
    List.mem_singleton, List.not_mem_nil, or_false] at hmem
  rcases hmem with h1 | h1 | h1
  · have h2 := congrArg (fun s => s.data.head?) h1
    simp [String.data_append] at h2
  · have h2 := congrArg (fun s => s.data.head?) h1
    simp [String.data_append] at h2
  · have h2 := congrArg (fun s => s.data.head?) h1
    simp [String.data_append] at h2

/-- With an accepted count, a first quantity that is no integer is rejected whatever the ledger
holds. -/
theorem createWand_first_conversion (stub : Caller) (l : Ledger) (args : List String)
    (hpriv : getOrg stub = .ok "org0-example-com")
    (h1 : ¬ args.length < 4) (h2 : ¬ (args.length % 3 ≠ 1 ∨ args.length = 1))
    (hparse : (args[3]?).bind parseInt64 = none) :
    createWand stub l args = (.error "Erro ao converter quantidade do material.", l) := by
  rw [createWand_of_shape stub l args hpriv h1 h2]
  match args, h1, hparse with
  | w :: n :: o :: s :: rest, _, hparse =>
    have hp : parseInt64 s = none := by simpa using hparse
    simp only [List.drop_succ_cons, List.drop_zero, validateMaterials, hp]
  | [], h1, _ => simp at h1
  | [_], h1, _ => simp at h1
  | [_, _], h1, _ => simp at h1
  | [_, _, _], h1, _ => simp at h1

/-- With an accepted count and a first quantity that is an integer, the call on the empty ledger
reads the ledger and fails with the not-found failure. -/
theorem createWand_empty_ledger (stub : Caller) (args : List String)
    (hpriv : getOrg stub = .ok "org0-example-com")
    (h1 : ¬ args.length < 4) (h2 : ¬ (args.length % 3 ≠ 1 ∨ args.length = 1))
    (hparse : (args[3]?).bind parseInt64 ≠ none) :
    ∃ n o, createWand stub [] args
      = (.error ("Material " ++ n ++ " de origem " ++ o ++ " não encontrado."), []) := by
  rw [createWand_of_shape stub [] args hpriv h1 h2]
  match args, h1, hparse with
  | w :: n :: o :: s :: rest, _, hparse =>
    cases hp : parseInt64 s with
    | none => simp [hp] at hparse
    | some q =>
      refine ⟨n, o, ?_⟩
      simp only [List.drop_succ_cons, List.drop_zero, validateMaterials, hp, getState]
  | [], h1, _ => simp at h1
  | [_], h1, _ => simp at h1
  | [_, _], h1, _ => simp at h1
  | [_, _, _], h1, _ => simp at h1

/-! ## Histories under every key -/

/-- After a debit loop that ran through, every debit key holds the JSON of a `Material`. -/
theorem debitMaterials_written (l l1 : Ledger) (materials : List Material)
    (h : debitMaterials l materials = (l1, none)) (key : String)
    (hkey : ∃ m ∈ materials, m.Name ++ m.Origin = key) :
    ∃ y, getState l1 key = some (.materialJSON y) := by
  induction materials generalizing l with
  | nil =>
    obtain ⟨m, hm, _⟩ := hkey
    simp at hm
  | cons m rest ih =>
    rw [debitMaterials_cons] at h
    cases hr : (getState l (m.Name ++ m.Origin)).bind unmarshalMaterial with
    | none => simp only [hr] at h; cases h
    | some lm =>
      simp only [hr] at h
      by_cases hrest : ∃ x ∈ rest, x.Name ++ x.Origin = key
      · exact ih _ h hrest
      · have hm : m.Name ++ m.Origin = key := by
          obtain ⟨x, hx, hxk⟩ := hkey
          rcases List.mem_cons.mp hx with heq | hmem
          · rw [← heq]; exact hxk
          · exact absurd ⟨x, hmem, hxk⟩ hrest
        have hother := debitMaterials_other
          (putState l (m.Name ++ m.Origin) (.materialJSON { lm with
            Quantity := I64.sub lm.Quantity m.Quantity })) rest key
          (fun x hx hxk => hrest ⟨x, hx, hxk⟩)
        rw [h] at hother
        refine ⟨{ lm with Quantity := I64.sub lm.Quantity m.Quantity }, ?_⟩
        have hput := getState_putState_same l (m.Name ++ m.Origin)
          (.materialJSON { lm with Quantity := I64.sub lm.Quantity m.Quantity })
        rw [hm] at hput hother
        exact hother.trans hput

theorem storedHistory_of_getState_eq (l l2 : Ledger) (key : String)
    (h : getState l2 key = getState l key) : storedHistory l2 key = storedHistory l key := by
  simp only [storedHistory, h]

theorem storedHistory_of_materialJSON (l : Ledger) (key : String) (y : Material)
    (h : getState l key = some (.materialJSON y)) : storedHistory l key = [] := by
  simp [storedHistory, h, unmarshalWand]

/-- The histories under the keys other than the wand's after a debit loop that ran through,
when no debit key among them held a history. -/
theorem debitMaterials_histories (l l1 : Ledger) (materials : List Material)
    (h : debitMaterials l materials = (l1, none)) (wandName : String)
    (hclean : ∀ m ∈ materials, m.Name ++ m.Origin ≠ wandName →
      storedHistory l (m.Name ++ m.Origin) = [])
    (key : String) (hkey : key ≠ wandName) :
    storedHistory l1 key = storedHistory l key := by
  by_cases hdebit : ∃ m ∈ materials, m.Name ++ m.Origin = key
  · obtain ⟨y, hy⟩ := debitMaterials_written l l1 materials h key hdebit
    obtain ⟨m, hm, hmk⟩ := hdebit
    have hbefore := hclean m hm (by rw [hmk]; exact hkey)
    rw [hmk] at hbefore
    rw [storedHistory_of_materialJSON l1 key y hy, hbefore]
  · apply storedHistory_of_getState_eq
    have hother := debitMaterials_other l materials key (fun x hx hxk => hdebit ⟨x, hx, hxk⟩)
    rw [h] at hother
    exact hother

/-! ## C1 -/

/-- C1: `createWand` is all-or-nothing with respect to stock.  For the privileged caller and an
argument list made of a wand name and material triples, if some triple names a material whose
stored quantity is less than the required quantity, `createWand` returns a failure and the
ledger after the call is the ledger before it, wherever the failing triple stands. -/
theorem createWand_insufficient_stock_all_or_nothing (stub : Caller) (l : Ledger)
    (wandName : String) (triples : List (String × String × String))
    (n o s : String) (q : I64) (b : Bytes) (m : Material)
    (hpriv : getOrg stub = .ok "org0-example-com")
    (hmem : (n, o, s) ∈ triples) (hq : parseInt64 s = some q)
    (hget : getState l (n ++ o) = some b) (hdec : unmarshalMaterial b = some m)
    (hlt : m.Quantity.val < q.val) :
    ∃ msg, createWand stub l (wandName :: flattenTriples triples) = (.error msg, l) := by
  obtain ⟨msg, hv⟩ := validateMaterials_insufficient l triples n o s q b m hmem hq hget hdec hlt []
  simp only [createWand, hpriv]
  split_ifs
  · exact ⟨_, rfl⟩
  · exact ⟨_, rfl⟩
  · exact ⟨_, rfl⟩
  · simp only [List.drop_succ_cons, List.drop_zero, hv]
    exact ⟨_, rfl⟩

/-- C1 at a request whose second triple is the one that is short. -/
theorem createWand_insufficient_stock_all_or_nothing_witness :
    ∃ msg, createWand olivaras shortOfIron ["elm-wand", "wood", "forest", "3", "iron", "mine", "5"]
      = (.error msg, shortOfIron) :=
  createWand_insufficient_stock_all_or_nothing olivaras shortOfIron "elm-wand"
    [("wood", "forest", "3"), ("iron", "mine", "5")] "iron" "mine" "5" (I64.ofInt 5)
    (.materialJSON ⟨"iron", "mine", I64.ofInt 2, "Material"⟩) ⟨"iron", "mine", I64.ofInt 2, "Material"⟩
    (by rfl) (by simp) (by decide) (by decide) (by rfl) (by decide)

/-! ## C2 -/

/-- C2 fails as stated, on both paths that write Material records.  After
`addMaterial("wood", "forest", "10")`, `createWand("elm-wand", "wood", "forest", "3")` and
`addMaterial("elm-", "wand", "5")`, all successful, the record under `elm-wand` carries the Wand
discriminator and has quantity 6 and no history entry.  And after `addMaterial("ab", "c", "5")`,
`createWand("abbc", "wood", "forest", "1")` and `createWand("oak", "a", "bc", "0")` on the second
of these ledgers, all successful, the debit of the last call has rewritten the wand `abbc` as a
record with the Wand discriminator, quantity 1 and no history entry. -/
theorem wand_quantity_invariant_counterexample :
    Reachable muddled
    ∧ getState muddled "elm-wand" = some (.materialJSON ⟨"elm-wand", "", I64.ofInt 6, "Wand"⟩)
    ∧ unmarshalWand (.materialJSON ⟨"elm-wand", "", I64.ofInt 6, "Wand"⟩)
      = some ⟨"elm-wand", [], I64.ofInt 6, "Wand"⟩
    ∧ (I64.ofInt 6).val ≠ (availableCount ([] : List Production) : Int)
    ∧ Reachable debitedWand
    ∧ getState debitedWand "abbc" = some (.materialJSON ⟨"abbc", "", I64.ofInt 1, "Wand"⟩)
    ∧ unmarshalWand (.materialJSON ⟨"abbc", "", I64.ofInt 1, "Wand"⟩)
      = some ⟨"abbc", [], I64.ofInt 1, "Wand"⟩
    ∧ (I64.ofInt 1).val ≠ (availableCount ([] : List Production) : Int) := by
  have hproduced : Reachable produced :=
    .invoke olivaras stocked produced "createWand" ["elm-wand", "wood", "forest", "3"]
      (.text "Varinha 'elm-wand' criada ou atualizada com sucesso.")
      (.invoke olivaras [] stocked "addMaterial" ["wood", "forest", "10"] .nil .empty (by decide))
      (by decide)
  refine ⟨?_, by decide, by decide, by decide, ?_, by decide, by decide, by decide⟩
  · exact .invoke gregorovitch produced muddled "addMaterial" ["elm-", "wand", "5"] .nil
      hproduced (by decide)
  · exact .invoke olivaras withAbbc debitedWand "createWand" ["oak", "a", "bc", "0"]
      (.text "Varinha 'oak' criada ou atualizada com sucesso.")
      (.invoke olivaras withAbc withAbbc "createWand" ["abbc", "wood", "forest", "1"]
        (.text "Varinha 'abbc' criada ou atualizada com sucesso.")
        (.invoke gregorovitch produced withAbc "addMaterial" ["ab", "c", "5"] .nil hproduced
          (by decide))
        (by decide))
      (by decide)

/-- C2, amended: in every ledger state reachable from the empty ledger by any sequence of the
five operations with arbitrary arguments in which `addMaterial` is never applied to a key whose
record carries the Wand discriminator and `createWand` never debits such a key, every record
carrying the Wand discriminator has quantity equal to the number of entries of its
`productionHistory` whose `available` flag is true.  The history is a Go slice, so its length
fits `int64`. -/
theorem wand_quantity_invariant_apart (l : Ledger) (key : String) (b : Bytes) (w : Wand)
    (hreach : ReachableApart l) (hget : getState l key = some b)
    (hdec : unmarshalWand b = some w) (hkind : w.ObjectType = "Wand")
    (hfit : (w.ProductionHistory.length : Int) ≤ maxInt64) :
    w.Quantity.val = availableCount w.ProductionHistory := by
  rw [reachableApart_wandsCounted l hreach key b w hget hdec hkind, I64.val_ofInt]
  have hle := availableCount_le_length w.ProductionHistory
  exact wrapInt64_of_range _ (by unfold minInt64; omega) (by omega)

/-- C2 (amended) at the wand `elm-wand` after its first production. -/
theorem wand_quantity_invariant_apart_witness :
    (I64.ofInt 1).val
      = availableCount [(⟨[⟨"wood", "forest", I64.ofInt 3, "Material"⟩], true⟩ : Production)] := by
  have h1 := ReachableApart.invoke olivaras [] "addMaterial" ["wood", "forest", "10"] .empty (by decide)
  have e1 : (Invoke olivaras [] "addMaterial" ["wood", "forest", "10"]).2 = stocked := by decide
  rw [e1] at h1
  have h2 := ReachableApart.invoke olivaras stocked "createWand" ["elm-wand", "wood", "forest", "3"] h1
    (by decide)
  have e2 : (Invoke olivaras stocked "createWand" ["elm-wand", "wood", "forest", "3"]).2 = produced := by
    decide
  rw [e2] at h2
  exact wand_quantity_invariant_apart produced "elm-wand"
    (.wandJSON ⟨"elm-wand", [⟨[⟨"wood", "forest", I64.ofInt 3, "Material"⟩], true⟩], I64.ofInt 1, "Wand"⟩)
    ⟨"elm-wand", [⟨[⟨"wood", "forest", I64.ofInt 3, "Material"⟩], true⟩], I64.ofInt 1, "Wand"⟩
    h2 (by decide) (by rfl) (by rfl) (by decide)

/-! ## C3 -/

/-- C3 fails as stated: after `addMaterial("wood", "forest", "9223372036854775807")` on the empty
ledger the largest `int64` is in stock; replenishing by 1 succeeds and leaves the smallest
`int64`, not the stored quantity plus 1. -/
theorem addMaterial_additive_counterexample :
    addMaterial [] ["wood", "forest", "9223372036854775807"] = (.success .nil, brimful)
    ∧ getState brimful ("wood" ++ "forest")
      = some (.materialJSON ⟨"wood", "forest", I64.ofInt 9223372036854775807, "Material"⟩)
    ∧ parseInt64 "1" = some (I64.ofInt 1)
    ∧ (addMaterial brimful ["wood", "forest", "1"]).1 = .success .nil
    ∧ getState (addMaterial brimful ["wood", "forest", "1"]).2 ("wood" ++ "forest")
      = some (.materialJSON ⟨"wood", "forest", I64.ofInt (-9223372036854775808), "Material"⟩)
    ∧ (I64.ofInt (-9223372036854775808)).val
      ≠ (I64.ofInt 9223372036854775807).val + (I64.ofInt 1).val := by
  decide

/-- C3, amended: for non-empty name and origin and a quantity string that parses as `delta`,
`addMaterial` succeeds whenever the key `name ++ origin` is absent or holds a record that
decodes.  If absent, the key afterwards holds the Material with that name, origin, quantity
`delta` and the Material discriminator.  If present, the record keeps its name, origin and
discriminator and its quantity is the stored quantity plus `delta` reduced modulo `2^64` into
the `int64` range, which is the exact sum whenever that sum fits `int64`. -/
theorem addMaterial_adds_wrapping (l : Ledger) (name origin qty : String) (delta : I64)
    (hname : name ≠ "") (horigin : origin ≠ "") (hparse : parseInt64 qty = some delta) :
    (getState l (name ++ origin) = none →
      (addMaterial l [name, origin, qty]).1 = .success .nil ∧
      getState (addMaterial l [name, origin, qty]).2 (name ++ origin)
        = some (.materialJSON ⟨name, origin, delta, "Material"⟩)) ∧
    (∀ b m, getState l (name ++ origin) = some b → unmarshalMaterial b = some m →
      (addMaterial l [name, origin, qty]).1 = .success .nil ∧
      ∃ m2, getState (addMaterial l [name, origin, qty]).2 (name ++ origin) = some (.materialJSON m2) ∧
        m2.Name = m.Name ∧ m2.Origin = m.Origin ∧ m2.ObjectType = m.ObjectType ∧
        m2.Quantity.val = wrapInt64 (m.Quantity.val + delta.val) ∧
        (minInt64 ≤ m.Quantity.val + delta.val → m.Quantity.val + delta.val ≤ maxInt64 →
          m2.Quantity.val = m.Quantity.val + delta.val)) := by
  constructor
  · intro habs
    have hq : I64.add (I64.ofInt 0) delta = delta := by
      apply I64.eq_of_val_eq
      have h0 : (I64.ofInt 0).val = 0 := by decide
      rw [I64.val_add, h0, zero_add]
      exact wrapInt64_of_range _ delta.lo delta.hi
    simp [addMaterial, getMaterial, hparse, hname, horigin, habs, getState_putState_same, hq]
  · intro b m hget hdec
    refine ⟨by simp [addMaterial, getMaterial, hparse, hname, horigin, hget, hdec], ?_⟩
    refine ⟨{ m with Quantity := I64.add m.Quantity delta }, ?_, rfl, rfl, rfl, rfl, ?_⟩
    · simp [addMaterial, getMaterial, hparse, hname, horigin, hget, hdec, getState_putState_same]
    · intro hlo hhi
      exact wrapInt64_of_range _ hlo hhi

/-- C3 (amended) at the first replenishment of the empty ledger. -/
theorem addMaterial_adds_wrapping_witness :
    (addMaterial [] ["wood", "forest", "10"]).1 = .success .nil ∧
    getState (addMaterial [] ["wood", "forest", "10"]).2 ("wood" ++ "forest")
      = some (.materialJSON ⟨"wood", "forest", I64.ofInt 10, "Material"⟩) :=
  (addMaterial_adds_wrapping [] "wood" "forest" "10" (I64.ofInt 10)
    (by decide) (by decide) (by decide)).1 (by rfl)

/-! ## C4 -/

/-- C4 fails as stated: `addMaterial("wood", "forest", "10")`, `createWand("elm", "wood",
"forest", "1")`, `addMaterial("el", "m", "9223372036854775806")` and `createWand("elm", "wood",
"forest", "1")`, all successful from the empty ledger, leave the wand `elm` with quantity
`-9223372036854775808` and one available entry; selling that entry succeeds and leaves
quantity `9223372036854775807`, which is not one less. -/
theorem sellWand_decrement_counterexample :
    Reachable wrappedWand
    ∧ getState wrappedWand "elm" = some (.wandJSON ⟨"elm",
        [⟨[⟨"wood", "forest", I64.ofInt 1, "Material"⟩], true⟩],
        I64.ofInt (-9223372036854775808), "Wand"⟩)
    ∧ atoi "0" = some (I64.ofInt 0)
    ∧ (sellWand olivaras wrappedWand ["elm", "0"]).1 = .success (.text "Varinha vendida com sucesso")
    ∧ getState (sellWand olivaras wrappedWand ["elm", "0"]).2 "elm" = some (.wandJSON ⟨"elm",
        [⟨[⟨"wood", "forest", I64.ofInt 1, "Material"⟩], false⟩],
        I64.ofInt 9223372036854775807, "Wand"⟩)
    ∧ (I64.ofInt 9223372036854775807).val ≠ (I64.ofInt (-9223372036854775808)).val - 1 := by
  refine ⟨?_, by decide, by decide, by decide, by decide, by decide⟩
  exact .invoke olivaras elmInflated wrappedWand "createWand" ["elm", "wood", "forest", "1"]
    (.text "Varinha 'elm' criada ou atualizada com sucesso.")
    (.invoke olivaras elmOnce elmInflated "addMaterial" ["el", "m", "9223372036854775806"] .nil
      (.invoke olivaras stocked elmOnce "createWand" ["elm", "wood", "forest", "1"]
        (.text "Varinha 'elm' criada ou atualizada com sucesso.")
        (.invoke olivaras [] stocked "addMaterial" ["wood", "forest", "10"] .nil .empty (by decide))
        (by decide))
      (by decide))
    (by decide)

/-- C4, amended: for the privileged caller, a wand stored under `wandName` and an index `i` in
range whose entry is available, `sellWand(wandName, i)` succeeds; in the wand stored afterwards
the quantity is the former quantity minus 1 reduced modulo `2^64` into the `int64` range (exactly
one less unless the former quantity was the smallest `int64`), entry `i` is unavailable with its
materials unchanged, the history has the same length and every other entry is unchanged. -/
theorem sellWand_available_postcondition (stub : Caller) (l : Ledger) (wandName index : String)
    (i : I64) (b : Bytes) (w : Wand) (entry : Production)
    (hpriv : getOrg stub = .ok "org0-example-com")
    (hget : getState l wandName = some b) (hdec : unmarshalWand b = some w)
    (hidx : atoi index = some i) (hlo : 0 ≤ i.val)
    (hentry : w.ProductionHistory[i.val.toNat]? = some entry) (havail : entry.Available = true) :
    (sellWand stub l [wandName, index]).1 = .success (.text "Varinha vendida com sucesso") ∧
    ∃ w2, getState (sellWand stub l [wandName, index]).2 wandName = some (.wandJSON w2) ∧
      w2.Quantity.val = wrapInt64 (w.Quantity.val - 1) ∧
      (minInt64 < w.Quantity.val → w2.Quantity.val = w.Quantity.val - 1) ∧
      w2.ProductionHistory.length = w.ProductionHistory.length ∧
      w2.ProductionHistory[i.val.toNat]? = some ⟨entry.Materials, false⟩ ∧
      (∀ j, j ≠ i.val.toNat → w2.ProductionHistory[j]? = w.ProductionHistory[j]?) ∧
      w2.Name = w.Name ∧ w2.ObjectType = w.ObjectType := by
  rw [sellWand_of_available stub l wandName index i b w entry hpriv hget hdec hidx hlo hentry havail]
  refine ⟨rfl, _, getState_putState_same _ _ _, ?_, ?_, ?_, ?_, ?_, rfl, rfl⟩
  · simp only [I64.val_sub, I64.val_ofInt, wrapInt64_one]
  · intro hmin
    simp only [I64.val_sub, I64.val_ofInt, wrapInt64_one]
    exact wrapInt64_of_range _ (by unfold minInt64 at *; omega) (by have := w.Quantity.hi; omega)
  · exact length_markSold _ _
  · exact getElem?_markSold_same _ _ _ hentry
  · intro j hj
    exact getElem?_markSold_other _ _ _ hj

/-- C4 (amended) at the sale of the only entry of `elm-wand`. -/
theorem sellWand_available_postcondition_witness :
    (sellWand olivaras produced ["elm-wand", "0"]).1 = .success (.text "Varinha vendida com sucesso") ∧
    ∃ w2, getState (sellWand olivaras produced ["elm-wand", "0"]).2 "elm-wand" = some (.wandJSON w2) ∧
      w2.Quantity.val = wrapInt64 ((I64.ofInt 1).val - 1) ∧
      (minInt64 < (I64.ofInt 1).val → w2.Quantity.val = (I64.ofInt 1).val - 1) ∧
      w2.ProductionHistory.length = [(⟨[⟨"wood", "forest", I64.ofInt 3, "Material"⟩], true⟩ : Production)].length ∧
      w2.ProductionHistory[(I64.ofInt 0).val.toNat]? = some ⟨[⟨"wood", "forest", I64.ofInt 3, "Material"⟩], false⟩ ∧
      (∀ j, j ≠ (I64.ofInt 0).val.toNat →
        w2.ProductionHistory[j]? = [(⟨[⟨"wood", "forest", I64.ofInt 3, "Material"⟩], true⟩ : Production)][j]?) ∧
      w2.Name = "elm-wand" ∧ w2.ObjectType = "Wand" :=
  sellWand_available_postcondition olivaras produced "elm-wand" "0" (I64.ofInt 0)
    (.wandJSON ⟨"elm-wand", [⟨[⟨"wood", "forest", I64.ofInt 3, "Material"⟩], true⟩], I64.ofInt 1, "Wand"⟩)
    ⟨"elm-wand", [⟨[⟨"wood", "forest", I64.ofInt 3, "Material"⟩], true⟩], I64.ofInt 1, "Wand"⟩
    ⟨[⟨"wood", "forest", I64.ofInt 3, "Material"⟩], true⟩
    (by rfl) (by decide) (by rfl) (by decide) (by decide) (by decide) (by rfl)

/-! ## C5 -/

/-- C5: for the privileged caller, `sellWand` on an in-range index whose entry is already sold
fails with the already-sold error and leaves the ledger unchanged; and after every successful
`sellWand(wandName, i)`, the same call again fails with that error and changes nothing. -/
theorem sellWand_already_sold (stub : Caller) (hpriv : getOrg stub = .ok "org0-example-com") :
    (∀ (l : Ledger) (wandName index : String) (i : I64) (b : Bytes) (w : Wand) (entry : Production),
      getState l wandName = some b → unmarshalWand b = some w → atoi index = some i →
      0 ≤ i.val → w.ProductionHistory[i.val.toNat]? = some entry → entry.Available = false →
      sellWand stub l [wandName, index] = (.error "Essa varinha ja foi vendida.", l)) ∧
    (∀ (seller : Caller) (l l2 : Ledger) (wandName index : String) (payload : Payload),
      sellWand seller l [wandName, index] = (.success payload, l2) →
      sellWand stub l2 [wandName, index] = (.error "Essa varinha ja foi vendida.", l2)) := by
  constructor
  · intro l wandName index i b w entry hget hdec hidx hlo hentry havail
    exact sellWand_of_sold stub l wandName index i b w entry hpriv hget hdec hidx hlo hentry havail
  · intro seller l l2 wandName index payload h
    obtain ⟨wn, ix, b, i, w, entry, hargs, _, hget, hdec, hidx, hlo, hentry, _, hl2⟩ :=
      sellWand_success_inv seller l l2 _ payload h
    simp only [List.cons.injEq, and_true] at hargs
    obtain ⟨rfl, rfl⟩ := hargs
    subst hl2
    exact sellWand_of_sold stub _ wandName index i _ _ ⟨entry.Materials, false⟩ hpriv
      (getState_putState_same _ _ _) rfl hidx hlo
      (getElem?_markSold_same _ _ _ hentry) rfl

/-- C5 at the scenario ledgers: the second sale of entry 0 of `elm-wand` fails and changes
nothing. -/
theorem sellWand_already_sold_witness :
    sellWand olivaras sold ["elm-wand", "0"] = (.error "Essa varinha ja foi vendida.", sold) :=
  (sellWand_already_sold olivaras (by rfl)).2 olivaras produced sold "elm-wand" "0"
    (.text "Varinha vendida com sucesso") (by decide)

/-! ## C6 -/

/-- C6: for every caller whose organization is not `org0-example-com`, every argument list and
every ledger, `createWand` and `sellWand` return their unauthorized failure, which names the
caller's organization, and the ledger is left as it was. -/
theorem unauthorized_caller_rejected (stub : Caller) (orgID : String) (l : Ledger)
    (argsCreate argsSell : List String)
    (horg : getOrg stub = .ok orgID) (hne : orgID ≠ "org0-example-com") :
    createWand stub l argsCreate
      = (.error ("Somente o Sr. Olivaras pode criar novas varinhas. Sua organização: " ++ orgID ++ "."), l) ∧
    sellWand stub l argsSell
      = (.error ("Somente o Sr. Olivaras pode vender varinhas. Sua organização: " ++ orgID), l) := by
  constructor
  · simp [createWand, horg, hne]
  · simp [sellWand, horg, hne]

/-- C6 at a caller of `org1-example-com` with otherwise valid arguments. -/
theorem unauthorized_caller_rejected_witness :
    createWand gregorovitch produced ["elm-wand", "wood", "forest", "3"]
      = (.error ("Somente o Sr. Olivaras pode criar novas varinhas. Sua organização: "
          ++ "org1-example-com" ++ "."), produced) ∧
    sellWand gregorovitch produced ["elm-wand", "0"]
      = (.error ("Somente o Sr. Olivaras pode vender varinhas. Sua organização: "
          ++ "org1-example-com"), produced) :=
  unauthorized_caller_rejected gregorovitch "org1-example-com" produced
    ["elm-wand", "wood", "forest", "3"] ["elm-wand", "0"] (by rfl) (by decide)

/-! ## C7 -/

/-- C7: starting from a ledger with no entry under `wandName`, after `N >= 1` successful
`createWand` calls for `wandName`, with no `sellWand` and no other write to that key in
between, the stored wand has quantity `N`, a history of `N` entries, and every entry available.
`N` is the length of a Go slice, so it fits `int64`. -/
theorem createWand_production_count (wandName : String) (N : Nat) (l : Ledger)
    (h : ProducedTimes wandName N l) (hN : 1 ≤ N) (hfit : (N : Int) ≤ maxInt64) :
    ∃ w, getState l wandName = some (.wandJSON w) ∧ w.Quantity.val = N ∧
      w.ProductionHistory.length = N ∧ ∀ p ∈ w.ProductionHistory, p.Available = true := by
  rcases producedTimes_entry wandName N l h with ⟨h0, _⟩ | ⟨_, w, hget, _, hqty, hlen, hall⟩
  · omega
  · refine ⟨w, hget, ?_, hlen, hall⟩
    rw [hqty, I64.val_ofInt]
    exact wrapInt64_of_range _ (by unfold minInt64; omega) hfit

/-- C7 at one production of `elm-wand`. -/
theorem createWand_production_count_witness :
    ∃ w, getState produced "elm-wand" = some (.wandJSON w) ∧ w.Quantity.val = (1 : Nat) ∧
      w.ProductionHistory.length = 1 ∧ ∀ p ∈ w.ProductionHistory, p.Available = true :=
  createWand_production_count "elm-wand" 1 produced
    (.create 0 stocked produced olivaras ["wood", "forest", "3"]
      (.text "Varinha 'elm-wand' criada ou atualizada com sucesso.")
      (.start stocked (by decide)) (by decide))
    (by decide) (by decide)

/-! ## C8 -/

/-- C8 fails as stated: with the largest `int64` of wood in stock, `createWand` for one triple
requiring `-1` succeeds (the stored name is the requested one and the wand key is no material
key) and leaves the smallest `int64`, not the stored quantity minus `-1`. -/
theorem createWand_debit_counterexample :
    addMaterial [] ["wood", "forest", "9223372036854775807"] = (.success .nil, brimful)
    ∧ getState brimful ("wood" ++ "forest")
      = some (.materialJSON ⟨"wood", "forest", I64.ofInt 9223372036854775807, "Material"⟩)
    ∧ parseInt64 "-1" = some (I64.ofInt (-1))
    ∧ wandKey brimful "elm" ≠ "wood" ++ "forest"
    ∧ (createWand olivaras brimful ["elm", "wood", "forest", "-1"]).1
      = .success (.text "Varinha 'elm' criada ou atualizada com sucesso.")
    ∧ getState (createWand olivaras brimful ["elm", "wood", "forest", "-1"]).2 ("wood" ++ "forest")
      = some (.materialJSON ⟨"wood", "forest", I64.ofInt (-9223372036854775808), "Material"⟩)
    ∧ (I64.ofInt (-9223372036854775808)).val
      ≠ (I64.ofInt 9223372036854775807).val - (I64.ofInt (-1)).val := by
  decide

/-- C8, amended: after a successful `createWand` in which every validated ledger record's stored
name equals the requested material name, for every ledger key `k` other than the key the wand
is written under, a record that decoded under `k` before the call decodes afterwards to the
same record with quantity equal to its pre-call quantity minus the sum of the required
quantities of the triples whose `name ++ origin` equals `k`, reduced modulo `2^64` into the
`int64` range (the exact difference whenever that fits `int64`); and a key named by no triple
holds what it held before. -/
theorem createWand_debits (stub : Caller) (l l2 : Ledger) (wandName : String)
    (triples : List (String × String × String)) (payload : Payload)
    (hok : createWand stub l (wandName :: flattenTriples triples) = (.success payload, l2))
    (hname : ∀ t ∈ triples, ∀ b m, getState l (t.1 ++ t.2.1) = some b →
      unmarshalMaterial b = some m → m.Name = t.1)
    (k : String) (hk : k ≠ wandKey l wandName) :
    (∀ x, (getState l k).bind unmarshalMaterial = some x →
      ∃ x2, (getState l2 k).bind unmarshalMaterial = some x2 ∧
        x2.Name = x.Name ∧ x2.Origin = x.Origin ∧ x2.ObjectType = x.ObjectType ∧
        x2.Quantity.val = wrapInt64 (x.Quantity.val - requiredSum k triples) ∧
        (minInt64 ≤ x.Quantity.val - requiredSum k triples →
          x.Quantity.val - requiredSum k triples ≤ maxInt64 →
          x2.Quantity.val = x.Quantity.val - requiredSum k triples)) ∧
    ((∀ t ∈ triples, t.1 ++ t.2.1 ≠ k) → getState l2 k = getState l k) :=
  createWand_debited stub l l2 wandName triples payload hok hname k hk

/-- C8 (amended) at the production of `elm-wand` from 3 of the 10 wood in stock. -/
theorem createWand_debits_witness :
    (∀ x, (getState stocked "woodforest").bind unmarshalMaterial = some x →
      ∃ x2, (getState produced "woodforest").bind unmarshalMaterial = some x2 ∧
        x2.Name = x.Name ∧ x2.Origin = x.Origin ∧ x2.ObjectType = x.ObjectType ∧
        x2.Quantity.val = wrapInt64 (x.Quantity.val - requiredSum "woodforest" [("wood", "forest", "3")]) ∧
        (minInt64 ≤ x.Quantity.val - requiredSum "woodforest" [("wood", "forest", "3")] →
          x.Quantity.val - requiredSum "woodforest" [("wood", "forest", "3")] ≤ maxInt64 →
          x2.Quantity.val = x.Quantity.val - requiredSum "woodforest" [("wood", "forest", "3")])) ∧
    ((∀ t ∈ [("wood", "forest", "3")], t.1 ++ t.2.1 ≠ "woodforest") →
      getState produced "woodforest" = getState stocked "woodforest") :=
  createWand_debits olivaras stocked produced "elm-wand" [("wood", "forest", "3")]
    (.text "Varinha 'elm-wand' criada ou atualizada com sucesso.") (by decide)
    (by
      intro t ht b m hg hd
      simp only [List.mem_singleton] at ht
      subst ht
      have hb : getState stocked ("wood" ++ "forest")
          = some (.materialJSON ⟨"wood", "forest", I64.ofInt 10, "Material"⟩) := by decide
      rw [hb] at hg
      cases hg
      cases hd
      rfl)
    "woodforest" (by decide)

/-! ## C9 -/

/-- C9: the end-to-end scenario on the empty ledger with the privileged caller.  `addMaterial`
and `createWand` succeed and leave wood/forest with quantity 7 and `elm-wand` with quantity 1 and
one available history entry; `sellWand("elm-wand", "0")` succeeds and leaves quantity 0 with that
entry unavailable; the second `sellWand("elm-wand", "0")` fails as already sold. -/
theorem end_to_end_scenario :
    Invoke olivaras [] "addMaterial" ["wood", "forest", "10"] = (.success .nil, stocked)
    ∧ Invoke olivaras stocked "createWand" ["elm-wand", "wood", "forest", "3"]
      = (.success (.text "Varinha 'elm-wand' criada ou atualizada com sucesso."), produced)
    ∧ produced =
      [("elm-wand", .wandJSON ⟨"elm-wand", [⟨[⟨"wood", "forest", I64.ofInt 3, "Material"⟩], true⟩],
          I64.ofInt 1, "Wand"⟩),
        ("woodforest", .materialJSON ⟨"wood", "forest", I64.ofInt 7, "Material"⟩)]
    ∧ (I64.ofInt 7).val = 7 ∧ (I64.ofInt 1).val = 1
    ∧ Invoke olivaras produced "sellWand" ["elm-wand", "0"]
      = (.success (.text "Varinha vendida com sucesso"), sold)
    ∧ sold =
      [("elm-wand", .wandJSON ⟨"elm-wand", [⟨[⟨"wood", "forest", I64.ofInt 3, "Material"⟩], false⟩],
          I64.ofInt 0, "Wand"⟩),
        ("woodforest", .materialJSON ⟨"wood", "forest", I64.ofInt 7, "Material"⟩)]
    ∧ (I64.ofInt 0).val = 0
    ∧ Invoke olivaras sold "sellWand" ["elm-wand", "0"]
      = (.error "Essa varinha ja foi vendida.", sold) := by
  decide

/-! ## C10 -/

/-- C10 fails as stated: the request `createWand("elm-wand", "iron", "mine", "x")` has an
accepted argument count and its only triple names a key with no ledger entry, yet the call
fails with the conversion error, not with the not-found message: the quantity is parsed before
the key is read. -/
theorem createWand_validation_counterexample :
    getState stocked ("iron" ++ "mine") = none
    ∧ ["elm-wand", "iron", "mine", "x"].length = 4
    ∧ parseInt64 "x" = none
    ∧ createWand olivaras stocked ["elm-wand", "iron", "mine", "x"]
      = (.error "Erro ao converter quantidade do material.", stocked)
    ∧ "Erro ao converter quantidade do material."
      ≠ "Material " ++ "iron" ++ " de origem " ++ "mine" ++ " não encontrado." := by
  decide

/-- C10, amended: the validate phase tells absence from zero stock.  For the privileged caller
and a wand name followed by triples, when every triple before `(n, o, s)` passes validation:
if `s` does not parse as an integer, `createWand` fails with the conversion error; if `s` parses
and the key `n ++ o` has no entry, it fails with the not-found message naming `n` and `o`; if
`s` parses and the key holds a record whose quantity is less than the required one, it fails
with the insufficient-stock message reporting the available and the required quantity; in all
three cases nothing is written.  A present record with quantity 0 passes a required quantity
of 0, however the 0 is written: the loop moves on to the next triple. -/
theorem createWand_validation_errors (stub : Caller) (l : Ledger) (wandName : String)
    (passed rest : List (String × String × String)) (n o s : String)
    (hpriv : getOrg stub = .ok "org0-example-com")
    (hpassed : ∀ t ∈ passed, passesValidation l t = true) :
    (parseInt64 s = none →
      createWand stub l (wandName :: flattenTriples (passed ++ (n, o, s) :: rest))
        = (.error "Erro ao converter quantidade do material.", l)) ∧
    (∀ q, parseInt64 s = some q → getState l (n ++ o) = none →
      createWand stub l (wandName :: flattenTriples (passed ++ (n, o, s) :: rest))
        = (.error ("Material " ++ n ++ " de origem " ++ o ++ " não encontrado."), l)) ∧
    (∀ q b m, parseInt64 s = some q → getState l (n ++ o) = some b →
      unmarshalMaterial b = some m → m.Quantity.val < q.val →
      createWand stub l (wandName :: flattenTriples (passed ++ (n, o, s) :: rest))
        = (.error ("Não há quantidade suficiente do material " ++ m.Name
            ++ ". Quantidade disponível: " ++ fmtInt m.Quantity
            ++ ", requerida: " ++ fmtInt q ++ "."), l)) ∧
    (∀ q b m acc, parseInt64 s = some q → q.val = 0 → getState l (n ++ o) = some b →
      unmarshalMaterial b = some m → m.Quantity.val = 0 →
      validateMaterials l (n :: o :: s :: flattenTriples rest) acc
        = validateMaterials l (flattenTriples rest) (acc ++ [⟨m.Name, o, q, "Material"⟩])) := by
  have hne : passed ++ (n, o, s) :: rest ≠ [] := by simp
  obtain ⟨acc2, hacc⟩ := validateMaterials_passed l passed (flattenTriples ((n, o, s) :: rest)) hpassed []
  refine ⟨?_, ?_, ?_, ?_⟩
  · intro hq
    rw [createWand_of_triples stub l wandName _ hpriv hne, flattenTriples_append, hacc]
    simp only [flattenTriples, validateMaterials, hq]
  · intro q hq habs
    rw [createWand_of_triples stub l wandName _ hpriv hne, flattenTriples_append, hacc]
    simp only [flattenTriples, validateMaterials, hq, habs]
  · intro q b m hq hget hdec hlt
    rw [createWand_of_triples stub l wandName _ hpriv hne, flattenTriples_append, hacc]
    simp only [flattenTriples, validateMaterials, hq, hget, hdec, hlt, if_true]
  · intro q b m acc hq hq0 hget hdec hzero
    exact validateMaterials_step l n o s _ acc q b m hq hget hdec (by omega)

/-- C10 (amended) on each of its four cases: a second triple whose quantity is no integer, a
second triple naming an absent material, a triple requiring 11 of the 10 wood in stock, and a
requirement of `+0` on a stock of 0. -/
theorem createWand_validation_errors_witness :
    createWand olivaras stocked ["elm-wand", "wood", "forest", "3", "iron", "mine", "x"]
      = (.error "Erro ao converter quantidade do material.", stocked)
    ∧ createWand olivaras stocked ["elm-wand", "wood", "forest", "3", "iron", "mine", "5"]
      = (.error ("Material " ++ "iron" ++ " de origem " ++ "mine" ++ " não encontrado."), stocked)
    ∧ createWand olivaras stocked ["elm-wand", "wood", "forest", "11"]
      = (.error ("Não há quantidade suficiente do material " ++ "wood"
          ++ ". Quantidade disponível: " ++ fmtInt (I64.ofInt 10)
          ++ ", requerida: " ++ fmtInt (I64.ofInt 11) ++ "."), stocked)
    ∧ validateMaterials emptied ["wood", "forest", "+0"] []
      = validateMaterials emptied [] ([] ++ [⟨"wood", "forest", I64.ofInt 0, "Material"⟩]) :=
  ⟨(createWand_validation_errors olivaras stocked "elm-wand" [("wood", "forest", "3")] []
      "iron" "mine" "x" (by rfl) (by decide)).1 (by decide),
   (createWand_validation_errors olivaras stocked "elm-wand" [("wood", "forest", "3")] []
      "iron" "mine" "5" (by rfl) (by decide)).2.1 (I64.ofInt 5) (by decide) (by decide),
   (createWand_validation_errors olivaras stocked "elm-wand" [] []
      "wood" "forest" "11" (by rfl) (by decide)).2.2.1 (I64.ofInt 11)
      (.materialJSON ⟨"wood", "forest", I64.ofInt 10, "Material"⟩)
      ⟨"wood", "forest", I64.ofInt 10, "Material"⟩ (by decide) (by decide) (by rfl) (by decide),
   (createWand_validation_errors olivaras emptied "elm-wand" [] []
      "wood" "forest" "+0" (by rfl) (by decide)).2.2.2 (I64.ofInt 0)
      (.materialJSON ⟨"wood", "forest", I64.ofInt 0, "Material"⟩)
      ⟨"wood", "forest", I64.ofInt 0, "Material"⟩ [] (by decide) (by decide) (by decide) (by rfl)
      (by decide)⟩

/-! ## C11 -/

/-- C11 fails as stated: `createWand("elm-wand", "iron", "mine", "x")` has 4 arguments, an
accepted count, and is still rejected as an invalid argument before the ledger is read: the
answer is the conversion error on the empty ledger and on ledgers that hold materials and
wands alike. -/
theorem createWand_argument_shape_counterexample :
    ["elm-wand", "iron", "mine", "x"].length = 4
    ∧ (["elm-wand", "iron", "mine", "x"].length - 1) % 3 = 0
    ∧ createWand olivaras [] ["elm-wand", "iron", "mine", "x"]
      = (.error "Erro ao converter quantidade do material.", [])
    ∧ createWand olivaras produced ["elm-wand", "iron", "mine", "x"]
      = (.error "Erro ao converter quantidade do material.", produced)
    ∧ createWand olivaras sold ["elm-wand", "iron", "mine", "x"]
      = (.error "Erro ao converter quantidade do material.", sold) := by
  decide

/-- C11, amended: the argument shape of `createWand`.  For the privileged caller and every
argument list, the call is rejected with an invalid-argument failure whatever the ledger holds,
and without a write, if and only if the argument count is less than 4, or `(argCount - 1) mod 3`
is not 0, or the quantity of the first triple does not parse as an integer.  For every accepted
count a validation loop that runs through has collected exactly `(argCount - 1) / 3` snapshots,
the i-th of them from the arguments at positions `3i+1`, `3i+2`, `3i+3`: every argument after
the wand name belongs to exactly one processed triple. -/
theorem createWand_argument_shape (stub : Caller) (args : List String)
    (hpriv : getOrg stub = .ok "org0-example-com") :
    ((∃ e ∈ invalidArgumentErrors, ∀ l : Ledger, createWand stub l args = (.error e, l)) ↔
      (args.length < 4 ∨ (args.length - 1) % 3 ≠ 0 ∨ (args[3]?).bind parseInt64 = none)) ∧
    (args.length < 4 → ∀ l : Ledger, createWand stub l args =
      (.error "Esperado pelo menos 4 argumentos: Nome da Varinha, Nome Material, Origem do Material, Quantidade do material.", l)) ∧
    (¬ args.length < 4 → (args.length - 1) % 3 ≠ 0 → ∀ l : Ledger, createWand stub l args =
      (.error "Argumentos dos materiais devem ser em trios (Nome do Material, Origem, Quantidade).", l)) ∧
    (¬ args.length < 4 → (args.length - 1) % 3 = 0 → (args[3]?).bind parseInt64 = none →
      ∀ l : Ledger, createWand stub l args
        = (.error "Erro ao converter quantidade do material.", l)) ∧
    (¬ args.length < 4 → (args.length - 1) % 3 = 0 →
      ∀ (l : Ledger) (materials : List Material),
        validateMaterials l (args.drop 1) [] = .ok materials →
        materials.length = (args.length - 1) / 3 ∧
        ∀ (i : Nat) (m : Material), materials[i]? = some m →
          ∃ name origin qty q stored, args[3 * i + 1]? = some name ∧
            args[3 * i + 2]? = some origin ∧ args[3 * i + 3]? = some qty ∧
            parseInt64 qty = some q ∧
            (getState l (name ++ origin)).bind unmarshalMaterial = some stored ∧
            m = ⟨stored.Name, origin, q, "Material"⟩) := by
  have hA : args.length < 4 → ∀ l : Ledger, createWand stub l args =
      (.error "Esperado pelo menos 4 argumentos: Nome da Varinha, Nome Material, Origem do Material, Quantidade do material.", l) := by
    intro h1 l
    unfold createWand
    simp only [hpriv, ne_eq, not_true_eq_false, if_false]
    rw [if_pos h1]
  have hB : ¬ args.length < 4 → (args.length - 1) % 3 ≠ 0 → ∀ l : Ledger, createWand stub l args =
      (.error "Argumentos dos materiais devem ser em trios (Nome do Material, Origem, Quantidade).", l) := by
    intro h1 h2 l
    have h3 : args.length % 3 ≠ 1 ∨ args.length = 1 := by omega
    unfold createWand
    simp only [hpriv, ne_eq, not_true_eq_false, if_false]
    rw [if_neg h1, if_pos h3]
  have hC : ¬ args.length < 4 → (args.length - 1) % 3 = 0 → (args[3]?).bind parseInt64 = none →
      ∀ l : Ledger, createWand stub l args
        = (.error "Erro ao converter quantidade do material.", l) := by
    intro h1 h2 hparse l
    exact createWand_first_conversion stub l args hpriv h1 (by omega) hparse
  refine ⟨⟨?_, ?_⟩, hA, hB, hC, ?_⟩
  · rintro ⟨e, hmem, hall⟩
    by_contra hgood
    have h1 : ¬ args.length < 4 := fun h => hgood (Or.inl h)
    have h2 : (args.length - 1) % 3 = 0 := by
      by_contra h
      exact hgood (Or.inr (Or.inl h))
    have h3 : (args[3]?).bind parseInt64 ≠ none := fun h => hgood (Or.inr (Or.inr h))
    obtain ⟨n, o, hempty⟩ := createWand_empty_ledger stub args hpriv h1 (by omega) h3
    have he := (hall []).symm.trans hempty
    simp only [Prod.mk.injEq, Response.error.injEq, and_true] at he
    rw [he] at hmem
    exact notFound_not_invalidArgument n o hmem
  · intro hbad
    by_cases h1 : args.length < 4
    · exact ⟨_, by simp [invalidArgumentErrors, shapeErrors], hA h1⟩
    · by_cases h2 : (args.length - 1) % 3 = 0
      · have h3 : (args[3]?).bind parseInt64 = none := by
          rcases hbad with h | h | h
          · exact absurd h h1
          · exact absurd h2 h
          · exact h
        exact ⟨_, by simp [invalidArgumentErrors, shapeErrors], hC h1 h2 h3⟩
      · exact ⟨_, by simp [invalidArgumentErrors, shapeErrors], hB h1 h2⟩
  · intro h1 h2 l materials hv
    have hlen : (args.drop 1).length % 3 = 0 := by
      simp only [List.length_drop]; omega
    obtain ⟨hflat, hcount⟩ := loopTriples_of_length (args.drop 1) hlen
    rw [validateMaterials_loopTriples] at hv
    have hmap := validateMaterials_ok_snapshots l _ [] materials hv
    simp only [List.map_nil, List.nil_append] at hmap
    constructor
    · rw [validateMaterials_ok_length l _ [] materials hv, hcount, List.length_drop]
      simp
    · intro i m hm
      obtain ⟨t, q, stored, ht, hp, hd, heq⟩ := snapshots_getElem l _ materials hmap i m hm
      obtain ⟨g1, g2, g3⟩ := loopTriples_getElem (args.drop 1) i t ht
      rw [List.getElem?_drop] at g1 g2 g3
      refine ⟨t.1, t.2.1, t.2.2, q, stored, ?_, ?_, ?_, hp, hd, heq⟩
      · rw [← g1]; congr 1; omega
      · rw [← g2]; congr 1; omega
      · rw [← g3]; congr 1; omega

/-- C11 (amended) on a request whose last triple lacks its quantity, on a request whose first
quantity is no integer, and on the loop that runs through the one triple of a request. -/
theorem createWand_argument_shape_witness :
    createWand olivaras stocked ["elm-wand", "wood", "forest", "3", "iron", "mine"]
      = (.error "Argumentos dos materiais devem ser em trios (Nome do Material, Origem, Quantidade).",
        stocked)
    ∧ createWand olivaras stocked ["elm-wand", "wood", "forest", "x"]
      = (.error "Erro ao converter quantidade do material.", stocked)
    ∧ ([(⟨"wood", "forest", I64.ofInt 3, "Material"⟩ : Material)].length
        = (["elm-wand", "wood", "forest", "3"].length - 1) / 3
      ∧ ∀ (i : Nat) (m : Material),
        [(⟨"wood", "forest", I64.ofInt 3, "Material"⟩ : Material)][i]? = some m →
        ∃ name origin qty q stored, ["elm-wand", "wood", "forest", "3"][3 * i + 1]? = some name ∧
          ["elm-wand", "wood", "forest", "3"][3 * i + 2]? = some origin ∧
          ["elm-wand", "wood", "forest", "3"][3 * i + 3]? = some qty ∧
          parseInt64 qty = some q ∧
          (getState stocked (name ++ origin)).bind unmarshalMaterial = some stored ∧
          m = ⟨stored.Name, origin, q, "Material"⟩) :=
  ⟨(createWand_argument_shape olivaras ["elm-wand", "wood", "forest", "3", "iron", "mine"]
      (by rfl)).2.2.1 (by decide) (by decide) stocked,
   (createWand_argument_shape olivaras ["elm-wand", "wood", "forest", "x"]
      (by rfl)).2.2.2.1 (by decide) (by decide) (by decide) stocked,
   (createWand_argument_shape olivaras ["elm-wand", "wood", "forest", "3"]
      (by rfl)).2.2.2.2 (by decide) (by decide) stocked
      [⟨"wood", "forest", I64.ofInt 3, "Material"⟩] (by rfl)⟩

/-! ## C12 -/

/-- C12: lookup and bounds errors of `sellWand`.  For the privileged caller and exactly two
arguments, the call fails with the not-found message when no entry is stored under `wandName`,
and with the out-of-range message when the second argument parses to an index below 0 or not
below the length of the history (so for every index when the history is empty); in both cases
the ledger is unchanged.  An index in range is never rejected as out of range. -/
theorem sellWand_lookup_and_bounds (stub : Caller) (l : Ledger) (wandName index : String)
    (hpriv : getOrg stub = .ok "org0-example-com") :
    (getState l wandName = none →
      sellWand stub l [wandName, index]
        = (.error ("Varinha com o nome '" ++ wandName ++ "' não encontrada na ledger."), l)) ∧
    (∀ b w i, getState l wandName = some b → unmarshalWand b = some w → atoi index = some i →
      (i.val < 0 ∨ i.val ≥ (w.ProductionHistory.length : Int)) →
      sellWand stub l [wandName, index]
        = (.error "Índice fora do limite do vetor ProductionHistory.", l)) ∧
    (∀ b w i, getState l wandName = some b → unmarshalWand b = some w → atoi index = some i →
      w.ProductionHistory = [] →
      sellWand stub l [wandName, index]
        = (.error "Índice fora do limite do vetor ProductionHistory.", l)) ∧
    (∀ b w i, getState l wandName = some b → unmarshalWand b = some w → atoi index = some i →
      0 ≤ i.val → i.val < (w.ProductionHistory.length : Int) →
      (sellWand stub l [wandName, index]).1
        ≠ .error "Índice fora do limite do vetor ProductionHistory.") := by
  have hout : ∀ b w i, getState l wandName = some b → unmarshalWand b = some w →
      atoi index = some i → (i.val < 0 ∨ i.val ≥ (w.ProductionHistory.length : Int)) →
      sellWand stub l [wandName, index]
        = (.error "Índice fora do limite do vetor ProductionHistory.", l) := by
    intro b w i hget hdec hidx hrange
    simp only [sellWand, hpriv, ne_eq, not_true_eq_false, if_false, hget, hidx, hdec]
    rw [if_pos hrange]
  refine ⟨?_, hout, ?_, ?_⟩
  · intro habs
    simp only [sellWand, hpriv, ne_eq, not_true_eq_false, if_false, habs]
  · intro b w i hget hdec hidx hempty
    apply hout b w i hget hdec hidx
    rw [hempty]
    simp only [List.length_nil, Nat.cast_zero]
    omega
  · intro b w i hget hdec hidx hlo hhi
    have hlt : i.val.toNat < w.ProductionHistory.length := by omega
    have hentry : w.ProductionHistory[i.val.toNat]? = some (w.ProductionHistory[i.val.toNat]) :=
      List.getElem?_eq_getElem hlt
    cases havail : (w.ProductionHistory[i.val.toNat]).Available with
    | true =>
      rw [sellWand_of_available stub l wandName index i b w _ hpriv hget hdec hidx hlo hentry havail]
      intro h
      cases h
    | false =>
      rw [sellWand_of_sold stub l wandName index i b w _ hpriv hget hdec hidx hlo hentry havail]
      show Response.error "Essa varinha ja foi vendida."
        ≠ Response.error "Índice fora do limite do vetor ProductionHistory."
      decide

/-- C12 at a sale from a ledger that holds no wand of that name. -/
theorem sellWand_lookup_and_bounds_witness :
    sellWand olivaras stocked ["elm-wand", "0"]
      = (.error ("Varinha com o nome '" ++ "elm-wand" ++ "' não encontrada na ledger."), stocked) :=
  (sellWand_lookup_and_bounds olivaras stocked "elm-wand" "0" (by rfl)).1 (by decide)

/-! ## C13 -/

/-- C13: catalog filtering.  For every ledger, `listMaterials` succeeds, without a write, with
the JSON array of exactly the entries, in scan order, whose value decodes as a `Material` and
carries the discriminator `Material`, and `listWands` with those that decode as a `Wand` and
carry the discriminator `Wand` (with no such entry the payload is `null`).  Every matching
entry is in the listing, the other entries are skipped without a failure, and neither listing
contains a record with the other discriminator. -/
theorem catalog_filtering (l : Ledger) :
    (l.filterMap materialEntry ≠ [] →
      listMaterials l = (.success (.materialArray (l.filterMap materialEntry)), l)) ∧
    (l.filterMap materialEntry = [] → listMaterials l = (.success .jsonNull, l)) ∧
    (l.filterMap wandEntry ≠ [] →
      listWands l = (.success (.wandArray (l.filterMap wandEntry)), l)) ∧
    (l.filterMap wandEntry = [] → listWands l = (.success .jsonNull, l)) ∧
    (∀ entry m, materialEntry entry = some m ↔
      unmarshalMaterial entry.2 = some m ∧ m.ObjectType = "Material") ∧
    (∀ entry w, wandEntry entry = some w ↔
      unmarshalWand entry.2 = some w ∧ w.ObjectType = "Wand") ∧
    (∀ entry ∈ l, ∀ m, unmarshalMaterial entry.2 = some m → m.ObjectType = "Material" →
      m ∈ l.filterMap materialEntry) ∧
    (∀ entry ∈ l, ∀ w, unmarshalWand entry.2 = some w → w.ObjectType = "Wand" →
      w ∈ l.filterMap wandEntry) ∧
    (∀ m ∈ l.filterMap materialEntry, m.ObjectType = "Material" ∧ m.ObjectType ≠ "Wand") ∧
    (∀ w ∈ l.filterMap wandEntry, w.ObjectType = "Wand" ∧ w.ObjectType ≠ "Material") := by
  have hm : listMaterials l = (.success (marshalMaterials (l.filterMap materialEntry)), l) := by
    simp only [listMaterials, scanMaterials_eq, List.nil_append]
  have hw : listWands l = (.success (marshalWands (l.filterMap wandEntry)), l) := by
    simp only [listWands, scanWands_eq, List.nil_append]
  refine ⟨?_, ?_, ?_, ?_, materialEntry_eq_some, wandEntry_eq_some, ?_, ?_, ?_, ?_⟩
  · intro hne
    rw [hm]
    cases hlist : l.filterMap materialEntry with
    | nil => exact absurd hlist hne
    | cons m ms => rfl
  · intro hnil
    rw [hm, hnil]
    rfl
  · intro hne
    rw [hw]
    cases hlist : l.filterMap wandEntry with
    | nil => exact absurd hlist hne
    | cons w ws => rfl
  · intro hnil
    rw [hw, hnil]
    rfl
  · intro entry hentry m hdec hkind
    exact List.mem_filterMap.mpr ⟨entry, hentry, (materialEntry_eq_some entry m).mpr ⟨hdec, hkind⟩⟩
  · intro entry hentry w hdec hkind
    exact List.mem_filterMap.mpr ⟨entry, hentry, (wandEntry_eq_some entry w).mpr ⟨hdec, hkind⟩⟩
  · intro m hm
    obtain ⟨entry, _, hentry⟩ := List.mem_filterMap.mp hm
    have hk := ((materialEntry_eq_some entry m).mp hentry).2
    refine ⟨hk, ?_⟩
    rw [hk]
    decide
  · intro w hw
    obtain ⟨entry, _, hentry⟩ := List.mem_filterMap.mp hw
    have hk := ((wandEntry_eq_some entry w).mp hentry).2
    refine ⟨hk, ?_⟩
    rw [hk]
    decide

/-- C13 at the ledger that holds the wand `elm-wand` and the material wood/forest: each listing
returns the one record of its kind. -/
theorem catalog_filtering_witness :
    listMaterials produced
      = (.success (.materialArray [⟨"wood", "forest", I64.ofInt 7, "Material"⟩]), produced)
    ∧ listWands produced
      = (.success (.wandArray [⟨"elm-wand",
          [⟨[⟨"wood", "forest", I64.ofInt 3, "Material"⟩], true⟩], I64.ofInt 1, "Wand"⟩]), produced) :=
  ⟨((catalog_filtering produced).1 (by decide)).trans (by decide),
   ((catalog_filtering produced).2.2.1 (by decide)).trans (by decide)⟩

/-! ## C14 -/

/-- C14 fails as stated: on the empty ledger both listings succeed, and their payload is the
JSON value `null` (the slice was never appended to, and `json.Marshal` of a nil slice is
`null`), not the empty array. -/
theorem empty_catalog_counterexample :
    listMaterials [] = (.success .jsonNull, [])
    ∧ listWands [] = (.success .jsonNull, [])
    ∧ Payload.jsonNull ≠ Payload.materialArray []
    ∧ Payload.jsonNull ≠ Payload.wandArray [] := by
  decide

/-- C14, amended: when the ledger has no entries, and likewise when no entry matches the
discriminator, `listMaterials` and `listWands` succeed, leave the ledger as it is, and their
success payload is the JSON value `null`, not an error and not any other value. -/
theorem empty_catalog_null (l : Ledger) :
    (l.filterMap materialEntry = [] → listMaterials l = (.success .jsonNull, l)) ∧
    (l.filterMap wandEntry = [] → listWands l = (.success .jsonNull, l)) := by
  constructor
  · intro h
    simp only [listMaterials, scanMaterials_eq, List.nil_append, h, marshalMaterials]
  · intro h
    simp only [listWands, scanWands_eq, List.nil_append, h, marshalWands]

/-- C14 (amended) at a ledger that holds a material and no wand. -/
theorem empty_catalog_null_witness : listWands stocked = (.success .jsonNull, stocked) :=
  (empty_catalog_null stocked).2 (by decide)

/-! ## C15 -/

/-- C15 fails as stated: after `addMaterial("ab", "c", "5")` and `addMaterial("abb", "c", "5")`,
`createWand("w", "a", "bc", "1")` succeeds (the key `abc` of its triple holds the material
`ab`/`c`, and the debit key `abbc` holds `abb`/`c`), and the snapshot in the appended entry
carries the name `ab`, not the triple's material name `a`. -/
theorem createWand_snapshot_counterexample :
    Reachable collided
    ∧ createWand olivaras collided ["w", "a", "bc", "1"]
      = (.success (.text "Varinha 'w' criada ou atualizada com sucesso."), miscredited)
    ∧ getState miscredited "w" = some (.wandJSON ⟨"w",
        [⟨[⟨"ab", "bc", I64.ofInt 1, "Material"⟩], true⟩], I64.ofInt 1, "Wand"⟩)
    ∧ "ab" ≠ "a" := by
  refine ⟨?_, by decide, by decide, by decide⟩
  exact .invoke gregorovitch collided0 collided "addMaterial" ["abb", "c", "5"] .nil
    (.invoke gregorovitch [] collided0 "addMaterial" ["ab", "c", "5"] .nil .empty (by decide))
    (by decide)

/-- C15, amended: after every successful `createWand(wandName, triples)`, the last entry of the
history of the wand the call has written is available and holds one snapshot per argument
triple, in argument order; the i-th snapshot has the i-th triple's origin and parsed required
quantity, the discriminator `Material`, and as name the name stored in the ledger record
validated for the i-th triple, which is the triple's material name whenever every validated
record's stored name equals the requested one. -/
theorem createWand_snapshot (stub : Caller) (l l2 : Ledger) (wandName : String)
    (triples : List (String × String × String)) (payload : Payload)
    (hok : createWand stub l (wandName :: flattenTriples triples) = (.success payload, l2)) :
    ∃ wand materials, getState l2 (wandKey l wandName) = some (.wandJSON wand) ∧
      wand.ProductionHistory.getLast? = some ⟨materials, true⟩ ∧
      materials.length = triples.length ∧
      (∀ (i : Nat) (t : String × String × String), triples[i]? = some t → ∃ q m, parseInt64 t.2.2 = some q ∧
        (getState l (t.1 ++ t.2.1)).bind unmarshalMaterial = some m ∧
        materials[i]? = some ⟨m.Name, t.2.1, q, "Material"⟩) ∧
      ((∀ t ∈ triples, ∀ b m, getState l (t.1 ++ t.2.1) = some b →
          unmarshalMaterial b = some m → m.Name = t.1) →
        ∀ (i : Nat) (t : String × String × String), triples[i]? = some t → ∃ q, parseInt64 t.2.2 = some q ∧
          materials[i]? = some ⟨t.1, t.2.1, q, "Material"⟩) := by
  obtain ⟨materials, wand, l1, _, hval, hasm, _, hl2⟩ := createWand_success_inv stub l l2 _ payload hok
  simp only [List.drop_succ_cons, List.drop_zero, List.headD_cons] at hval hasm
  have hmap := validateMaterials_ok_snapshots l triples [] materials hval
  simp only [List.map_nil, List.nil_append] at hmap
  have hidx : ∀ (i : Nat) (t : String × String × String), triples[i]? = some t → ∃ q m, parseInt64 t.2.2 = some q ∧
      (getState l (t.1 ++ t.2.1)).bind unmarshalMaterial = some m ∧
      materials[i]? = some ⟨m.Name, t.2.1, q, "Material"⟩ := by
    intro i t ht
    have hi := congrArg (fun xs => xs[i]?) hmap
    simp only [List.getElem?_map, ht, Option.map_some'] at hi
    cases hp : parseInt64 t.2.2 with
    | none => simp [snapshotOf, hp] at hi
    | some q =>
      cases hd : (getState l (t.1 ++ t.2.1)).bind unmarshalMaterial with
      | none => simp [snapshotOf, hp, hd] at hi
      | some m =>
        refine ⟨q, m, rfl, rfl, ?_⟩
        cases hm : materials[i]? with
        | none => simp [hm] at hi
        | some x =>
          simp only [hm, Option.map_some', snapshotOf, hp, hd, Option.some.injEq] at hi
          rw [hi]
  refine ⟨wand, materials, ?_, ?_, ?_, hidx, ?_⟩
  · rw [hl2, ← assembleWand_name l wandName materials wand hasm]
    exact getState_putState_same _ _ _
  · rw [assembleWand_history l wandName materials wand hasm]
    simp
  · have := validateMaterials_ok_length l triples [] materials hval
    simpa using this
  · intro hname i t ht
    obtain ⟨q, m, hp, hd, hm⟩ := hidx i t ht
    refine ⟨q, hp, ?_⟩
    cases hg : getState l (t.1 ++ t.2.1) with
    | none => simp [hg] at hd
    | some b =>
      simp only [hg, Option.bind_some] at hd
      have hn := hname t (List.getElem?_mem ht) b m hg hd
      rw [hm, hn]

/-- C15 (amended) at the production of `elm-wand` from 3 wood. -/
theorem createWand_snapshot_witness :
    ∃ wand materials, getState produced (wandKey stocked "elm-wand") = some (.wandJSON wand) ∧
      wand.ProductionHistory.getLast? = some ⟨materials, true⟩ ∧
      materials.length = [("wood", "forest", "3")].length ∧
      (∀ (i : Nat) (t : String × String × String), [("wood", "forest", "3")][i]? = some t → ∃ q m, parseInt64 t.2.2 = some q ∧
        (getState stocked (t.1 ++ t.2.1)).bind unmarshalMaterial = some m ∧
        materials[i]? = some ⟨m.Name, t.2.1, q, "Material"⟩) ∧
      ((∀ t ∈ [("wood", "forest", "3")], ∀ b m, getState stocked (t.1 ++ t.2.1) = some b →
          unmarshalMaterial b = some m → m.Name = t.1) →
        ∀ (i : Nat) (t : String × String × String), [("wood", "forest", "3")][i]? = some t → ∃ q, parseInt64 t.2.2 = some q ∧
          materials[i]? = some ⟨t.1, t.2.1, q, "Material"⟩) :=
  createWand_snapshot olivaras stocked produced "elm-wand" [("wood", "forest", "3")]
    (.text "Varinha 'elm-wand' criada ou atualizada com sucesso.") (by decide)

/-! ## C16 -/

/-- C16 fails as stated: on the empty ledger `addMaterial("ab", "c", "9223372036854775807")`
followed by `addMaterial("a", "bc", "1")` leaves under the common key `abc` the record of
`ab`/`c` with quantity `-9223372036854775808`, not the sum of the two deltas. -/
theorem addMaterial_collision_counterexample :
    "ab" ++ "c" = "a" ++ "bc"
    ∧ addMaterial [] ["ab", "c", "9223372036854775807"] = (.success .nil, abcFull)
    ∧ parseInt64 "9223372036854775807" = some (I64.ofInt 9223372036854775807)
    ∧ parseInt64 "1" = some (I64.ofInt 1)
    ∧ (addMaterial abcFull ["a", "bc", "1"]).1 = .success .nil
    ∧ getState (addMaterial abcFull ["a", "bc", "1"]).2 ("ab" ++ "c")
      = some (.materialJSON ⟨"ab", "c", I64.ofInt (-9223372036854775808), "Material"⟩)
    ∧ (I64.ofInt (-9223372036854775808)).val
      ≠ (I64.ofInt 9223372036854775807).val + (I64.ofInt 1).val := by
  decide

/-- C16, amended: for non-empty `(n1, o1)` and `(n2, o2)` with `n1 ++ o1 = n2 ++ o2` and a ledger
with no entry under that key, `addMaterial(n1, o1, d1)` followed by `addMaterial(n2, o2, d2)`
both succeed and leave a single record under the key: the Material with name `n1`, origin `o1`
(the first writer's identity) and quantity `d1 + d2` reduced modulo `2^64` into the `int64`
range, which is the exact sum whenever that sum fits `int64`. -/
theorem addMaterial_collision (l : Ledger) (n1 o1 n2 o2 q1 q2 : String) (d1 d2 : I64)
    (hn1 : n1 ≠ "") (ho1 : o1 ≠ "") (hn2 : n2 ≠ "") (ho2 : o2 ≠ "")
    (hkey : n1 ++ o1 = n2 ++ o2) (habs : getState l (n1 ++ o1) = none)
    (hp1 : parseInt64 q1 = some d1) (hp2 : parseInt64 q2 = some d2) :
    (addMaterial l [n1, o1, q1]).1 = .success .nil ∧
    (addMaterial (addMaterial l [n1, o1, q1]).2 [n2, o2, q2]).1 = .success .nil ∧
    getState (addMaterial (addMaterial l [n1, o1, q1]).2 [n2, o2, q2]).2 (n1 ++ o1)
      = some (.materialJSON ⟨n1, o1, I64.add d1 d2, "Material"⟩) ∧
    entriesUnder (addMaterial (addMaterial l [n1, o1, q1]).2 [n2, o2, q2]).2 (n1 ++ o1) = 1 ∧
    (I64.add d1 d2).val = wrapInt64 (d1.val + d2.val) ∧
    (minInt64 ≤ d1.val + d2.val → d1.val + d2.val ≤ maxInt64 →
      (I64.add d1 d2).val = d1.val + d2.val) := by
  rw [addMaterial_of_absent l n1 o1 q1 d1 hn1 ho1 hp1 habs]
  have hget : getState (putState l (n1 ++ o1) (.materialJSON ⟨n1, o1, d1, "Material"⟩)) (n2 ++ o2)
      = some (.materialJSON ⟨n1, o1, d1, "Material"⟩) := by
    rw [← hkey]; exact getState_putState_same _ _ _
  rw [addMaterial_of_present _ n2 o2 q2 d2 _ ⟨n1, o1, d1, "Material"⟩ hn2 ho2 hp2 hget rfl]
  rw [← hkey, putState_putState_absent l _ _ _ habs]
  refine ⟨rfl, rfl, getState_putState_same _ _ _, entriesUnder_putState_absent l _ _ habs, rfl, ?_⟩
  intro hlo hhi
  exact wrapInt64_of_range _ hlo hhi

/-- C16 (amended) at the pairs `("ab", "c")` and `("a", "bc")` on the empty ledger. -/
theorem addMaterial_collision_witness :
    (addMaterial [] ["ab", "c", "2"]).1 = .success .nil ∧
    (addMaterial (addMaterial [] ["ab", "c", "2"]).2 ["a", "bc", "3"]).1 = .success .nil ∧
    getState (addMaterial (addMaterial [] ["ab", "c", "2"]).2 ["a", "bc", "3"]).2 ("ab" ++ "c")
      = some (.materialJSON ⟨"ab", "c", I64.add (I64.ofInt 2) (I64.ofInt 3), "Material"⟩) ∧
    entriesUnder (addMaterial (addMaterial [] ["ab", "c", "2"]).2 ["a", "bc", "3"]).2 ("ab" ++ "c") = 1 ∧
    (I64.add (I64.ofInt 2) (I64.ofInt 3)).val = wrapInt64 ((I64.ofInt 2).val + (I64.ofInt 3).val) ∧
    (minInt64 ≤ (I64.ofInt 2).val + (I64.ofInt 3).val →
      (I64.ofInt 2).val + (I64.ofInt 3).val ≤ maxInt64 →
      (I64.add (I64.ofInt 2) (I64.ofInt 3)).val = (I64.ofInt 2).val + (I64.ofInt 3).val) :=
  addMaterial_collision [] "ab" "c" "a" "bc" "2" "3" (I64.ofInt 2) (I64.ofInt 3)
    (by decide) (by decide) (by decide) (by decide) (by decide) (by rfl) (by decide) (by decide)

/-! ## C17 -/

/-- C17: input validation of `addMaterial`.  The call fails and writes nothing whenever the
argument count is not 3, or the third argument does not parse as a base-10 signed 64-bit
integer, or the name or the origin is empty; a negative quantity is accepted like any other,
and `Invoke` hands the call over without looking at the caller. -/
theorem addMaterial_input_validation (l : Ledger) :
    (∀ args : List String, args.length ≠ 3 →
      addMaterial l args = (.error "Esperado 3 argumentos: Nome, Origem, Quantidade.", l)) ∧
    (∀ name origin qty : String, parseInt64 qty = none →
      addMaterial l [name, origin, qty] = (.error "Quantidade inválida.", l)) ∧
    (∀ (name origin qty : String) (delta : I64), parseInt64 qty = some delta →
      (name = "" ∨ origin = "") →
      addMaterial l [name, origin, qty] = (.error "Erro ao obter material.", l)) ∧
    (parseInt64 "" = none ∧ parseInt64 "ten" = none ∧ parseInt64 "1.5" = none ∧
      parseInt64 "0x10" = none ∧ parseInt64 "9223372036854775808" = none ∧
      parseInt64 "-9223372036854775809" = none ∧ parseInt64 "-5" = some (I64.ofInt (-5))) ∧
    (∀ (name origin qty : String) (delta : I64), name ≠ "" → origin ≠ "" →
      parseInt64 qty = some delta → delta.val < 0 →
      (getState l (name ++ origin) = none ∨
        ∃ b m, getState l (name ++ origin) = some b ∧ unmarshalMaterial b = some m) →
      (addMaterial l [name, origin, qty]).1 = .success .nil) ∧
    (∀ (stub : Caller) (args : List String),
      Invoke stub l "addMaterial" args = addMaterial l args) := by
  refine ⟨?_, ?_, ?_, by decide, ?_, ?_⟩
  · intro args hlen
    match args, hlen with
    | [], _ => rfl
    | [_], _ => rfl
    | [_, _], _ => rfl
    | [_, _, _], h => exact absurd rfl h
    | _ :: _ :: _ :: _ :: _, _ => rfl
  · intro name origin qty hp
    simp only [addMaterial, hp]
  · intro name origin qty delta hp hempty
    simp only [addMaterial, hp, getMaterial, hempty, if_true]
  · intro name origin qty delta hname horigin hp _ hkey
    rcases hkey with habs | ⟨b, m, hget, hdec⟩
    · rw [addMaterial_of_absent l name origin qty delta hname horigin hp habs]
    · rw [addMaterial_of_present l name origin qty delta b m hname horigin hp hget hdec]
  · intro stub args
    simp only [Invoke, if_true]

/-- C17 at a replenishment with an empty origin, by a caller of another organization. -/
theorem addMaterial_input_validation_witness :
    Invoke gregorovitch stocked "addMaterial" ["wood", "", "4"]
      = (.error "Erro ao obter material.", stocked) :=
  ((addMaterial_input_validation stocked).2.2.2.2.2 gregorovitch ["wood", "", "4"]).trans
    ((addMaterial_input_validation stocked).2.2.1 "wood" "" "4" (I64.ofInt 4) (by decide)
      (Or.inr rfl))

/-! ## C18 -/

/-- C18 fails as stated, in two ways.  On the ledger that holds the wand `abbc` with one entry,
the successful `createWand("oak", "a", "bc", "0")` debits the key `abbc` and leaves that wand
with no history entry.  And after `createWand("ab", "wood", "forest", "1")`,
`sellWand("ab", "0")` and `addMaterial("ab", "c", "5")`, the successful
`createWand("abc", "wood", "forest", "2")` writes its wand under `ab`: the sold entry 0 of `ab`
is replaced by an available entry with other materials. -/
theorem history_append_only_counterexample :
    Reachable withAbbc
    ∧ createWand olivaras withAbbc ["oak", "a", "bc", "0"]
      = (.success (.text "Varinha 'oak' criada ou atualizada com sucesso."), debitedWand)
    ∧ storedHistory withAbbc "abbc" = [⟨[⟨"wood", "forest", I64.ofInt 1, "Material"⟩], true⟩]
    ∧ storedHistory debitedWand "abbc" = []
    ∧ Reachable abWithMaterial
    ∧ createWand olivaras abWithMaterial ["abc", "wood", "forest", "2"]
      = (.success (.text "Varinha 'ab' criada ou atualizada com sucesso."), abRewritten)
    ∧ storedHistory abWithMaterial "ab" = [⟨[⟨"wood", "forest", I64.ofInt 1, "Material"⟩], false⟩]
    ∧ storedHistory abRewritten "ab" = [⟨[⟨"wood", "forest", I64.ofInt 2, "Material"⟩], true⟩] := by
  have hstocked : Reachable stocked :=
    .invoke olivaras [] stocked "addMaterial" ["wood", "forest", "10"] .nil .empty (by decide)
  refine ⟨?_, by decide, by decide, by decide, ?_, by decide, by decide, by decide⟩
  · exact .invoke olivaras withAbc withAbbc "createWand" ["abbc", "wood", "forest", "1"]
      (.text "Varinha 'abbc' criada ou atualizada com sucesso.")
      (.invoke gregorovitch produced withAbc "addMaterial" ["ab", "c", "5"] .nil
        (.invoke olivaras stocked produced "createWand" ["elm-wand", "wood", "forest", "3"]
          (.text "Varinha 'elm-wand' criada ou atualizada com sucesso.") hstocked (by decide))
        (by decide))
      (by decide)
  · exact .invoke gregorovitch abSold abWithMaterial "addMaterial" ["ab", "c", "5"] .nil
      (.invoke olivaras abMade abSold "sellWand" ["ab", "0"] (.text "Varinha vendida com sucesso")
        (.invoke olivaras stocked abMade "createWand" ["ab", "wood", "forest", "1"]
          (.text "Varinha 'ab' criada ou atualizada com sucesso.") hstocked (by decide))
        (by decide))
      (by decide)

/-- C18, amended: the production history is append-only and a sale is final, under every key,
for every successful `sellWand` and for every successful `createWand` that writes its wand under
`wandName` (the key is absent or the record stored there carries `wandName` as its name) and
debits no other key that holds a history.  Such a `createWand` appends exactly one available
entry, holding the validated snapshots, to the history under `wandName` and changes no existing
entry under any key.  `sellWand` leaves every key but `wandName` as it is and keeps, under every
key, the length of the history and the materials of every entry.  In both, no entry that was
unavailable before the step is available after it. -/
theorem history_append_only (stub : Caller) (l l2 : Ledger) (wandName : String) (payload : Payload) :
    (∀ (materialArgs : List String) (materials : List Material),
      createWand stub l (wandName :: materialArgs) = (.success payload, l2) →
      validateMaterials l materialArgs [] = .ok materials →
      wandKey l wandName = wandName →
      (∀ m ∈ materials, m.Name ++ m.Origin ≠ wandName →
        storedHistory l (m.Name ++ m.Origin) = []) →
      storedHistory l2 wandName = storedHistory l wandName ++ [⟨materials, true⟩] ∧
      (∀ key : String, key ≠ wandName → storedHistory l2 key = storedHistory l key) ∧
      (∀ (key : String) (j : Nat) (p : Production), (storedHistory l key)[j]? = some p →
        (storedHistory l2 key)[j]? = some p)) ∧
    (∀ index : String,
      sellWand stub l [wandName, index] = (.success payload, l2) →
      (∀ key : String, key ≠ wandName → getState l2 key = getState l key) ∧
      (∀ key : String,
        (storedHistory l2 key).length = (storedHistory l key).length ∧
        (storedHistory l2 key).map (fun p => p.Materials)
          = (storedHistory l key).map (fun p => p.Materials) ∧
        (∀ (j : Nat) (p q : Production), (storedHistory l key)[j]? = some p →
          (storedHistory l2 key)[j]? = some q → p.Available = false → q.Available = false))) := by
  constructor
  · intro materialArgs materials hok hval hself hclean
    obtain ⟨materials2, wand, l1, _, hval2, hasm, hdeb, hl2⟩ :=
      createWand_success_inv stub l l2 _ payload hok
    simp only [List.drop_succ_cons, List.drop_zero, List.headD_cons] at hval2 hasm
    rw [hval] at hval2
    cases hval2
    have hname : wand.Name = wandName := by
      rw [assembleWand_name l wandName materials wand hasm]; exact hself
    have hwand : storedHistory l2 wandName = storedHistory l wandName ++ [⟨materials, true⟩] := by
      rw [← assembleWand_history l wandName materials wand hasm, hl2, hname]
      simp [storedHistory, getState_putState_same, unmarshalWand]
    have hother : ∀ key : String, key ≠ wandName → storedHistory l2 key = storedHistory l key := by
      intro key hkey
      rw [← debitMaterials_histories l l1 materials hdeb wandName hclean key hkey]
      apply storedHistory_of_getState_eq
      rw [hl2, hname]
      exact getState_putState_other _ _ _ _ hkey
    refine ⟨hwand, hother, ?_⟩
    intro key j p hp
    by_cases hkey : key = wandName
    · subst hkey
      rw [hwand, List.getElem?_append_left (List.getElem?_eq_some.mp hp).1]
      exact hp
    · rw [hother key hkey]
      exact hp
  · intro index hok
    obtain ⟨wn, ix, b, i, w, entry, hargs, _, hget, hdec, _, _, _, _, hl2⟩ :=
      sellWand_success_inv stub l l2 _ payload hok
    simp only [List.cons.injEq, and_true] at hargs
    obtain ⟨rfl, rfl⟩ := hargs
    have hunchanged : ∀ key : String, key ≠ wandName → getState l2 key = getState l key := by
      intro key hkey
      rw [hl2]
      exact getState_putState_other _ _ _ _ hkey
    refine ⟨hunchanged, ?_⟩
    intro key
    by_cases hkey : key = wandName
    · subst hkey
      have hbefore : storedHistory l key = w.ProductionHistory := by
        simp [storedHistory, hget, hdec]
      have hafter : storedHistory l2 key = markSold w.ProductionHistory i.val.toNat := by
        rw [hl2]
        simp [storedHistory, getState_putState_same, unmarshalWand]
      rw [hbefore, hafter]
      refine ⟨length_markSold _ _, map_Materials_markSold _ _, ?_⟩
      intro j p q hp hq hsold
      exact markSold_keeps_sold _ _ j p q hp hq hsold
    · rw [storedHistory_of_getState_eq l l2 key (hunchanged key hkey)]
      refine ⟨rfl, rfl, ?_⟩
      intro j p q hp hq hsold
      rw [hp] at hq
      cases hq
      exact hsold

/-- C18 (amended) at the production of `elm-wand` and at the sale of its only entry. -/
theorem history_append_only_witness :
    (storedHistory produced "elm-wand"
        = storedHistory stocked "elm-wand" ++ [⟨[⟨"wood", "forest", I64.ofInt 3, "Material"⟩], true⟩]
      ∧ (∀ key : String, key ≠ "elm-wand" → storedHistory produced key = storedHistory stocked key)
      ∧ (∀ (key : String) (j : Nat) (p : Production), (storedHistory stocked key)[j]? = some p →
        (storedHistory produced key)[j]? = some p))
    ∧ ((∀ key : String, key ≠ "elm-wand" → getState sold key = getState produced key)
      ∧ (∀ key : String,
        (storedHistory sold key).length = (storedHistory produced key).length ∧
        (storedHistory sold key).map (fun p => p.Materials)
          = (storedHistory produced key).map (fun p => p.Materials) ∧
        (∀ (j : Nat) (p q : Production), (storedHistory produced key)[j]? = some p →
          (storedHistory sold key)[j]? = some q → p.Available = false → q.Available = false))) :=
  ⟨(history_append_only olivaras stocked produced "elm-wand"
      (.text "Varinha 'elm-wand' criada ou atualizada com sucesso.")).1
      ["wood", "forest", "3"] [⟨"wood", "forest", I64.ofInt 3, "Material"⟩]
      (by decide) (by rfl) (by decide)
      (by
        intro m hm _
        simp only [List.mem_singleton] at hm
        subst hm
        decide),
   (history_append_only olivaras produced sold "elm-wand" (.text "Varinha vendida com sucesso")).2
      "0" (by decide)⟩

/-! ## C19 -/

/-- C19: production keeps quantities non-negative under its pre-check.  After a successful
`createWand` whose required quantities are all at least 0, whose triples name pairwise distinct
keys, whose validated records carry the requested names and whose wand key is no material key,
every debited material had at least the required quantity, is left with exactly the stored
quantity minus the required one, and that is at least 0; and every material quantity that was
at least 0 before the call is at least 0 after it. -/
theorem createWand_keeps_nonnegative (stub : Caller) (l l2 : Ledger) (wandName : String)
    (triples : List (String × String × String)) (payload : Payload)
    (hok : createWand stub l (wandName :: flattenTriples triples) = (.success payload, l2))
    (hnonneg : ∀ t ∈ triples, ∀ q, parseInt64 t.2.2 = some q → 0 ≤ q.val)
    (hdistinct : (triples.map (fun t => t.1 ++ t.2.1)).Nodup)
    (hname : ∀ t ∈ triples, ∀ b m, getState l (t.1 ++ t.2.1) = some b →
      unmarshalMaterial b = some m → m.Name = t.1)
    (hwand : ∀ t ∈ triples, t.1 ++ t.2.1 ≠ wandKey l wandName) :
    (∀ t ∈ triples, ∃ q x x2, parseInt64 t.2.2 = some q ∧
      (getState l (t.1 ++ t.2.1)).bind unmarshalMaterial = some x ∧
      (getState l2 (t.1 ++ t.2.1)).bind unmarshalMaterial = some x2 ∧
      q.val ≤ x.Quantity.val ∧ x2.Quantity.val = x.Quantity.val - q.val ∧
      0 ≤ x2.Quantity.val) ∧
    (∀ k x, k ≠ wandKey l wandName → (getState l k).bind unmarshalMaterial = some x →
      0 ≤ x.Quantity.val →
      ∃ x2, (getState l2 k).bind unmarshalMaterial = some x2 ∧ 0 ≤ x2.Quantity.val) := by
  obtain ⟨materials, wand, l1, _, hval, _, _, _⟩ := createWand_success_inv stub l l2 _ payload hok
  simp only [List.drop_succ_cons, List.drop_zero] at hval
  have hdebited : ∀ t ∈ triples, ∃ q x x2, parseInt64 t.2.2 = some q ∧
      (getState l (t.1 ++ t.2.1)).bind unmarshalMaterial = some x ∧
      (getState l2 (t.1 ++ t.2.1)).bind unmarshalMaterial = some x2 ∧
      q.val ≤ x.Quantity.val ∧ x2.Quantity.val = x.Quantity.val - q.val ∧
      0 ≤ x2.Quantity.val := by
    intro t ht
    obtain ⟨q, b, m, hp, hg, hd, hge⟩ := validateMaterials_ok_all l triples [] materials hval t ht
    have hx : (getState l (t.1 ++ t.2.1)).bind unmarshalMaterial = some m := by simp [hg, hd]
    obtain ⟨x2, hx2, _, _, _, _, hexact⟩ :=
      (createWand_debited stub l l2 wandName triples payload hok hname _ (hwand t ht)).1 m hx
    have hsum := requiredSum_of_nodup _ triples hdistinct t q ht rfl hp
    have hq0 := hnonneg t ht q hp
    have hhi := m.Quantity.hi
    rw [hsum] at hexact
    have hval2 := hexact (by unfold minInt64; omega) (by omega)
    exact ⟨q, m, x2, hp, hx, hx2, by omega, hval2, by omega⟩
  refine ⟨hdebited, ?_⟩
  intro k x hk hx hx0
  by_cases hex : ∃ t ∈ triples, t.1 ++ t.2.1 = k
  · obtain ⟨t, ht, hkey⟩ := hex
    obtain ⟨q, x1, x2, _, _, hx2, _, _, h0⟩ := hdebited t ht
    rw [hkey] at hx2
    exact ⟨x2, hx2, h0⟩
  · have hno : ∀ t ∈ triples, t.1 ++ t.2.1 ≠ k := fun t ht hkey => hex ⟨t, ht, hkey⟩
    have hsame := (createWand_debited stub l l2 wandName triples payload hok hname k hk).2 hno
    exact ⟨x, by rw [hsame]; exact hx, hx0⟩

/-- C19 at the production of `elm-wand` from 3 of the 10 wood in stock. -/
theorem createWand_keeps_nonnegative_witness :
    (∀ t ∈ [("wood", "forest", "3")], ∃ q x x2, parseInt64 t.2.2 = some q ∧
      (getState stocked (t.1 ++ t.2.1)).bind unmarshalMaterial = some x ∧
      (getState produced (t.1 ++ t.2.1)).bind unmarshalMaterial = some x2 ∧
      q.val ≤ x.Quantity.val ∧ x2.Quantity.val = x.Quantity.val - q.val ∧
      0 ≤ x2.Quantity.val) ∧
    (∀ k x, k ≠ wandKey stocked "elm-wand" →
      (getState stocked k).bind unmarshalMaterial = some x → 0 ≤ x.Quantity.val →
      ∃ x2, (getState produced k).bind unmarshalMaterial = some x2 ∧ 0 ≤ x2.Quantity.val) :=
  createWand_keeps_nonnegative olivaras stocked produced "elm-wand" [("wood", "forest", "3")]
    (.text "Varinha 'elm-wand' criada ou atualizada com sucesso.") (by decide)
    (by
      intro t ht q hq
      simp only [List.mem_singleton] at ht
      subst ht
      have h3 : parseInt64 "3" = some (I64.ofInt 3) := by decide
      rw [h3] at hq
      cases hq
      decide)
    (by decide)
    (by
      intro t ht b m hg hd
      simp only [List.mem_singleton] at ht
      subst ht
      have hb : getState stocked ("wood" ++ "forest")
          = some (.materialJSON ⟨"wood", "forest", I64.ofInt 10, "Material"⟩) := by decide
      rw [hb] at hg
      cases hg
      cases hd
      rfl)
    (by
      intro t ht
      simp only [List.mem_singleton] at ht
      subst ht
      decide)

/-! ## C20 -/

/-- C20 fails as stated in its last part: with the largest `int64` of wood in stock, a triple
requiring `-2` passes validation and `createWand` succeeds, and the debit leaves
`-9223372036854775807`: the stored quantity has not grown by 2, it has dropped. -/
theorem negative_requirement_counterexample :
    addMaterial [] ["wood", "forest", "9223372036854775807"] = (.success .nil, brimful)
    ∧ parseInt64 "-2" = some (I64.ofInt (-2))
    ∧ (I64.ofInt (-2)).val ≤ (I64.ofInt 9223372036854775807).val
    ∧ (createWand olivaras brimful ["yew", "wood", "forest", "-2"]).1
      = .success (.text "Varinha 'yew' criada ou atualizada com sucesso.")
    ∧ getState (createWand olivaras brimful ["yew", "wood", "forest", "-2"]).2 ("wood" ++ "forest")
      = some (.materialJSON ⟨"wood", "forest", I64.ofInt (-9223372036854775807), "Material"⟩)
    ∧ (I64.ofInt (-9223372036854775807)).val ≠ (I64.ofInt 9223372036854775807).val + 2
    ∧ (I64.ofInt (-9223372036854775807)).val < (I64.ofInt 9223372036854775807).val := by
  decide

/-- C20, amended: validation checks each triple against the stored quantity, not against what
earlier triples of the same request consume.  With 5 wood in stock, the request that lists wood
twice with a required quantity of 3 each passes validation, `createWand` succeeds, and the two
debits leave a quantity of -1.  Likewise a triple with a negative required quantity `q` passes
validation whenever the stored quantity is at least `q`, and the debit of its snapshot leaves
the debited record with its stored quantity plus `|q|` reduced modulo `2^64` into the `int64`
range, which is the exact sum whenever that sum fits `int64`. -/
theorem validation_checks_each_triple_alone :
    (getState fiveWood ("wood" ++ "forest")
        = some (.materialJSON ⟨"wood", "forest", I64.ofInt 5, "Material"⟩)
      ∧ validateMaterials fiveWood ["wood", "forest", "3", "wood", "forest", "3"] []
        = .ok [⟨"wood", "forest", I64.ofInt 3, "Material"⟩, ⟨"wood", "forest", I64.ofInt 3, "Material"⟩]
      ∧ createWand olivaras fiveWood ["w", "wood", "forest", "3", "wood", "forest", "3"]
        = (.success (.text "Varinha 'w' criada ou atualizada com sucesso."), overdrawn)
      ∧ getState overdrawn ("wood" ++ "forest")
        = some (.materialJSON ⟨"wood", "forest", I64.ofInt (-1), "Material"⟩)
      ∧ (I64.ofInt (-1)).val = -1) ∧
    (∀ (l : Ledger) (n o s : String) (q : I64) (b : Bytes) (x : Material)
        (rest : List String) (acc : List Material),
      parseInt64 s = some q → q.val < 0 → getState l (n ++ o) = some b →
      unmarshalMaterial b = some x → q.val ≤ x.Quantity.val →
      validateMaterials l (n :: o :: s :: rest) acc
        = validateMaterials l rest (acc ++ [⟨x.Name, o, q, "Material"⟩]) ∧
      ∀ y, (getState l (x.Name ++ o)).bind unmarshalMaterial = some y →
        debitMaterials l [⟨x.Name, o, q, "Material"⟩]
          = (putState l (x.Name ++ o)
              (.materialJSON { y with Quantity := I64.sub y.Quantity q }), none) ∧
        (I64.sub y.Quantity q).val = wrapInt64 (y.Quantity.val + abs q.val) ∧
        (y.Quantity.val + abs q.val ≤ maxInt64 →
          (I64.sub y.Quantity q).val = y.Quantity.val + abs q.val)) := by
  refine ⟨⟨by decide, by rfl, by decide, by decide, by decide⟩, ?_⟩
  intro l n o s q b x rest acc hp hneg hg hd hge
  refine ⟨validateMaterials_step l n o s rest acc q b x hp hg hd (by omega), ?_⟩
  intro y hy
  have habs : abs q.val = -q.val := abs_of_neg hneg
  have hsub : y.Quantity.val - q.val = y.Quantity.val + abs q.val := by rw [habs]; ring
  refine ⟨?_, ?_, ?_⟩
  · rw [debitMaterials_cons]
    simp only [hy]
    rfl
  · rw [I64.val_sub, hsub]
  · intro hfit
    rw [I64.val_sub, hsub]
    have hlo := y.Quantity.lo
    exact wrapInt64_of_range _ (by rw [habs]; omega) hfit

/-- C20 (amended) at a requirement of -2 on the 5 wood in stock. -/
theorem validation_checks_each_triple_alone_witness :
    validateMaterials fiveWood ["wood", "forest", "-2"] []
      = validateMaterials fiveWood [] ([] ++ [⟨"wood", "forest", I64.ofInt (-2), "Material"⟩]) :=
  (validation_checks_each_triple_alone.2 fiveWood "wood" "forest" "-2" (I64.ofInt (-2))
    (.materialJSON ⟨"wood", "forest", I64.ofInt 5, "Material"⟩)
    ⟨"wood", "forest", I64.ofInt 5, "Material"⟩ [] []
    (by decide) (by decide) (by decide) (by rfl) (by decide)).1

end Studio
